import Mathlib

/-!
# Verification of the bento-mdb-updates model-to-changelog compiler

This file is a shallow embedding of the core of the `bento-mdb-updates`
repository: the model-to-changelog compiler found in
`src/bento_mdb_updates/cypher_utils.py`, `model_cypher.py` and
`cde_cypher.py`.

Python strings are embedded as `String` / `List Char`; Python's
`str.replace` (leftmost, non-overlapping) is reimplemented for the one- and
two-character patterns the source uses.  Metamodel entities (bento_meta
objects) are embedded as a single inductive tree `Ent`; their attribute
dictionaries are association lists in attribute-specification order, where
an absent key models a `None`-valued attribute.  Statement assembly
(minicypher clauses) is embedded as an inductive `Clause` type together
with a text renderer; the rendering conventions are pinned down by the
repository's own unit tests.  Fallible code (Python `raise` / `KeyError`)
is embedded with `Except String`.
-/

namespace BentoMdb

/-! ### Characters and Python-style `str.replace` -/

/-- The backslash character. -/
def bsC : Char := Char.ofNat 92

/-- The single-quote character. -/
def sqC : Char := Char.ofNat 39

/-- The double-quote character. -/
def dqC : Char := Char.ofNat 34

/-- Python `str.replace` for a single-character pattern `a`. -/
def replace1 (a : Char) (rep : List Char) : List Char → List Char
  | [] => []
  | c :: rest => (if c = a then rep else [c]) ++ replace1 a rep rest

/-- Fuel-bounded worker for the two-character replace; the fuel makes
the recursion structural so that the function computes by kernel
reduction.  `replace2` always supplies enough fuel. -/
def replace2Fuel (a b : Char) (rep : List Char) : Nat → List Char → List Char
  | _, [] => []
  | 0, c :: t => c :: t
  | fuel + 1, c :: t =>
    match t with
    | [] => [c]
    | d :: rest =>
      if c = a ∧ d = b then rep ++ replace2Fuel a b rep fuel rest
      else c :: replace2Fuel a b rep fuel (d :: rest)

/-- Python `str.replace` for a two-character pattern `[a, b]`
(leftmost match, non-overlapping). -/
def replace2 (a b : Char) (rep : List Char) (l : List Char) : List Char :=
  replace2Fuel a b rep l.length l

/-- The fuel is irrelevant as long as it bounds the list length. -/
theorem replace2Fuel_mono (a b : Char) (rep : List Char) :
    ∀ f1 f2 l, l.length ≤ f1 → l.length ≤ f2 →
      replace2Fuel a b rep f1 l = replace2Fuel a b rep f2 l := by
  intro f1
  induction f1 with
  | zero =>
    intro f2 l h1 _
    have hl : l = [] := List.eq_nil_of_length_eq_zero (Nat.le_zero.mp h1)
    subst hl
    cases f2 <;> rfl
  | succ f1' ih =>
    intro f2 l h1 h2
    match l with
    | [] => cases f2 <;> rfl
    | c :: t =>
      match f2 with
      | 0 => simp at h2
      | f2' + 1 =>
        match t with
        | [] => rfl
        | d :: rest =>
          simp only [List.length_cons] at h1 h2
          by_cases hm : c = a ∧ d = b
          · simp only [replace2Fuel, if_pos hm]
            rw [ih f2' rest (by omega) (by omega)]
          · simp only [replace2Fuel, if_neg hm]
            rw [ih f2' (d :: rest) (by simp; omega) (by simp; omega)]

@[simp] theorem replace1_nil (a : Char) (rep : List Char) :
    replace1 a rep [] = [] := rfl

theorem replace1_cons (a : Char) (rep : List Char) (c : Char) (t : List Char) :
    replace1 a rep (c :: t) = (if c = a then rep else [c]) ++ replace1 a rep t := rfl

theorem replace1_append (a : Char) (rep : List Char) (x y : List Char) :
    replace1 a rep (x ++ y) = replace1 a rep x ++ replace1 a rep y := by
  induction x with
  | nil => simp
  | cons c t ih => simp [replace1_cons, ih]

@[simp] theorem replace2_nil (a b : Char) (rep : List Char) :
    replace2 a b rep [] = [] := rfl

@[simp] theorem replace2_single (a b : Char) (rep : List Char) (c : Char) :
    replace2 a b rep [c] = [c] := rfl

theorem replace2_cons2 (a b : Char) (rep : List Char) (c d : Char) (t : List Char) :
    replace2 a b rep (c :: d :: t) =
      if c = a ∧ d = b then rep ++ replace2 a b rep t
      else c :: replace2 a b rep (d :: t) := by
  show replace2Fuel a b rep (t.length + 1 + 1) (c :: d :: t) = _
  by_cases hm : c = a ∧ d = b
  · simp only [replace2Fuel, if_pos hm]
    rw [replace2Fuel_mono a b rep (t.length + 1) t.length t (by omega) (by omega)]
    rfl
  · simp only [replace2Fuel, if_neg hm]
    rfl

/-- A two-character replace passes over a head character that does not
start the pattern. -/
theorem replace2_cons_ne_fst (a b : Char) (rep : List Char) (c : Char)
    (t : List Char) (hc : c ≠ a) :
    replace2 a b rep (c :: t) = c :: replace2 a b rep t := by
  cases t with
  | nil => simp
  | cons d t' => rw [replace2_cons2]; simp [hc]

/-- A two-character replace passes over the head when the second character
does not match. -/
theorem replace2_cons_ne_snd (a b : Char) (rep : List Char) (c d : Char)
    (t : List Char) (hd : d ≠ b) :
    replace2 a b rep (c :: d :: t) = c :: replace2 a b rep (d :: t) := by
  rw [replace2_cons2]; simp [hd]

/-- If the pattern's first character does not occur in the list, a
two-character replace is the identity. -/
theorem replace2_of_not_mem (a b : Char) (rep : List Char) :
    ∀ l : List Char, a ∉ l → replace2 a b rep l = l := by
  intro l
  induction l with
  | nil => simp
  | cons c t ih =>
    intro h
    have hc : c ≠ a := fun hca => h (hca ▸ List.mem_cons_self c t)
    rw [replace2_cons_ne_fst a b rep c t hc, ih (fun ha => h (List.mem_cons_of_mem c ha))]

/-! ### The quote-escaping pass (`escape_quotes_in_attr`) -/

/-- `unescapeChars` embeds the source's unescaping step:
`val.replace("\'", "'").replace("\"", '"')`. -/
def unescapeChars (l : List Char) : List Char :=
  replace2 bsC dqC [dqC] (replace2 bsC sqC [sqC] l)

/-- `escQChars` embeds the source's re-escaping step:
`val.replace("'", "\'").replace('"', "\"")`. -/
def escQChars (l : List Char) : List Char :=
  replace1 dqC [bsC, dqC] (replace1 sqC [bsC, sqC] l)

/-- One application of the quote-escaping pass to one string value:
unescape previously escaped quotes, then escape all quotes.  This is the
body of `escape_quotes_in_attr` in `cypher_utils.py` for one attribute. -/
def escapeChars (l : List Char) : List Char := escQChars (unescapeChars l)

/-- String-level version of `escapeChars`. -/
def escapeStr (s : String) : String := ⟨escapeChars s.data⟩

/-- Specification form of the re-escaping step: every quote gets a
backslash inserted in front of it. -/
def escsp : List Char → List Char
  | [] => []
  | c :: t => (if c = sqC ∨ c = dqC then [bsC, c] else [c]) ++ escsp t

/-- Half-collapsed form: single quotes bare, double quotes escaped. -/
def escspD : List Char → List Char
  | [] => []
  | c :: t => (if c = dqC then [bsC, c] else [c]) ++ escspD t

theorem sq_ne_dq : sqC ≠ dqC := by decide
theorem bs_ne_sq : bsC ≠ sqC := by decide
theorem bs_ne_dq : bsC ≠ dqC := by decide
theorem dq_ne_bs : dqC ≠ bsC := by decide
theorem sq_ne_bs : sqC ≠ bsC := by decide

/-- How `escQChars` acts on one leading character. -/
theorem escQChars_cons (c : Char) (t : List Char) :
    escQChars (c :: t) =
      (if c = sqC ∨ c = dqC then [bsC, c] else [c]) ++ escQChars t := by
  unfold escQChars
  rw [replace1_cons, replace1_append]
  by_cases hs : c = sqC
  · subst hs
    simp [replace1_cons, bs_ne_dq, sq_ne_dq]
  · by_cases hd : c = dqC
    · subst hd
      simp [replace1_cons, hs]
    · simp [replace1_cons, hs, hd]

/-- The two successive single-character replaces of the escape step
compute `escsp`. -/
theorem escQChars_eq_escsp : ∀ l, escQChars l = escsp l := by
  intro l
  induction l with
  | nil => rfl
  | cons c t ih => rw [escQChars_cons, ih, escsp]

/-- The head of an `escsp` image is never a quote character. -/
theorem escsp_head_ne_quote (t : List Char) :
    escsp t = [] ∨ ∃ h r, escsp t = h :: r ∧ h ≠ sqC ∧ h ≠ dqC := by
  cases t with
  | nil => exact Or.inl rfl
  | cons c t' =>
    right
    by_cases hq : c = sqC ∨ c = dqC
    · exact ⟨bsC, c :: escsp t', by simp [escsp, hq], bs_ne_sq, bs_ne_dq⟩
    · push_neg at hq
      exact ⟨c, escsp t', by simp [escsp, hq.1, hq.2], hq.1, hq.2⟩

/-- The head of an `escspD` image is never a double quote. -/
theorem escspD_head_ne_dq (t : List Char) :
    escspD t = [] ∨ ∃ h r, escspD t = h :: r ∧ h ≠ dqC := by
  cases t with
  | nil => exact Or.inl rfl
  | cons c t' =>
    right
    by_cases hq : c = dqC
    · exact ⟨bsC, c :: escspD t', by simp [escspD, hq], bs_ne_dq⟩
    · exact ⟨c, escspD t', by simp [escspD, hq], hq⟩

/-- Collapsing `\'` pairs in an `escsp` image yields the half-collapsed
form `escspD`. -/
theorem replace2_sq_escsp : ∀ l, replace2 bsC sqC [sqC] (escsp l) = escspD l := by
  intro l
  induction l with
  | nil => simp [escsp, escspD]
  | cons c t ih =>
    by_cases hs : c = sqC
    · subst hs
      have h1 : escsp (sqC :: t) = bsC :: sqC :: escsp t := by simp [escsp]
      rw [h1, replace2_cons2]
      simp [escspD, ih, sq_ne_dq]
    · by_cases hd : c = dqC
      · subst hd
        have h1 : escsp (dqC :: t) = bsC :: dqC :: escsp t := by simp [escsp]
        rw [h1, replace2_cons_ne_snd _ _ _ _ _ _ (by decide : dqC ≠ sqC),
          replace2_cons_ne_fst _ _ _ _ _ (by decide : dqC ≠ bsC), ih]
        simp [escspD]
      · have hesc : escsp (c :: t) = c :: escsp t := by simp [escsp, hs, hd]
        rw [hesc]
        by_cases hb : c = bsC
        · subst hb
          rcases escsp_head_ne_quote t with h0 | ⟨h, r, hr, hns, _⟩
          · have ht : escspD t = [] := by rw [← ih, h0, replace2_nil]
            rw [h0, replace2_single]
            simp [escspD, hs, hd, ht]
          · rw [hr, replace2_cons_ne_snd _ _ _ _ _ _ hns, ← hr, ih]
            simp [escspD, hs, hd]
        · rw [replace2_cons_ne_fst _ _ _ _ _ hb, ih]
          simp [escspD, hs, hd]

/-- Collapsing `\"` pairs in the half-collapsed form recovers the
original string. -/
theorem replace2_dq_escspD : ∀ l, replace2 bsC dqC [dqC] (escspD l) = l := by
  intro l
  induction l with
  | nil => simp [escspD]
  | cons c t ih =>
    by_cases hd : c = dqC
    · subst hd
      have h1 : escspD (dqC :: t) = bsC :: dqC :: escspD t := by simp [escspD]
      rw [h1, replace2_cons2]
      simp [ih]
    · have hesc : escspD (c :: t) = c :: escspD t := by simp [escspD, hd]
      rw [hesc]
      by_cases hb : c = bsC
      · subst hb
        rcases escspD_head_ne_dq t with h0 | ⟨h, r, hr, hnd⟩
        · have ht : t = [] := by rw [← ih, h0, replace2_nil]
          rw [h0, replace2_single, ht]
        · rw [hr, replace2_cons_ne_snd _ _ _ _ _ _ hnd, ← hr, ih]
      · rw [replace2_cons_ne_fst _ _ _ _ _ hb, ih]

/-- Unescaping is a retraction of escaping: `unescape(escQ(u)) = u`. -/
theorem unescape_escQChars (u : List Char) :
    unescapeChars (escQChars u) = u := by
  unfold unescapeChars
  rw [escQChars_eq_escsp, replace2_sq_escsp, replace2_dq_escspD]

/-- Core idempotence of the quote-escaping pass on one string. -/
theorem escapeChars_idem (l : List Char) :
    escapeChars (escapeChars l) = escapeChars l := by
  unfold escapeChars
  rw [unescape_escQChars]

/-- String-level idempotence of the quote-escaping pass. -/
theorem escapeStr_idem (s : String) : escapeStr (escapeStr s) = escapeStr s := by
  unfold escapeStr
  simp [escapeChars_idem]

/-! ### The converters' final quote fix-up and the escaping shape of bodies

Both converters post-process each rendered statement with
`str(stmt).replace("\\'", "'")` before serializing it into a changeset.
-/

/-- The final fix-up `str(stmt).replace("\\'", "'")` applied by both
converters to each rendered statement. -/
def collapseChars (l : List Char) : List Char := replace2 bsC sqC [sqC] l

/-- String-level version of `collapseChars`. -/
def collapseStr (s : String) : String := ⟨collapseChars s.data⟩

/-- `good l` holds when every backslash in `l` is immediately followed by
a double quote and every double quote is immediately preceded by a
backslash: double quotes are exactly singly escaped, single quotes are
bare, and nothing is doubly escaped. -/
def good : List Char → Bool
  | [] => true
  | c :: t =>
    if c = bsC then
      match t with
      | [] => false
      | d :: t' => if d = dqC then good t' else false
    else if c = dqC then false
    else good t

theorem good_nil : good [] = true := rfl

theorem good_cons_other (c : Char) (t : List Char) (h1 : c ≠ bsC) (h2 : c ≠ dqC) :
    good (c :: t) = good t := by
  cases t with
  | nil => simp [good, h1, h2]
  | cons d t' => simp [good, h1, h2]

theorem good_cons_pair (t : List Char) :
    good (bsC :: dqC :: t) = good t := by
  simp [good]

theorem good_cons_dq (t : List Char) : good (dqC :: t) = false := by
  cases t with
  | nil => simp [good, dq_ne_bs]
  | cons d t' => simp [good, dq_ne_bs]

theorem good_append (l₂ : List Char) (h2 : good l₂ = true) :
    ∀ l₁, good l₁ = true → good (l₁ ++ l₂) = true := by
  have main : ∀ n l₁, l₁.length = n → good l₁ = true → good (l₁ ++ l₂) = true := by
    intro n
    induction n using Nat.strong_induction_on with
    | _ n ih =>
      intro l₁ hlen h1
      match l₁ with
      | [] => exact h2
      | c :: t =>
        by_cases hb : c = bsC
        · subst hb
          match t with
          | [] => simp [good] at h1
          | d :: t' =>
            by_cases hd : d = dqC
            · subst hd
              rw [good_cons_pair] at h1
              have hlt : t'.length < n := by
                rw [← hlen]; simp [List.length_cons]; omega
              have hg := ih t'.length hlt t' rfl h1
              have hshape : (bsC :: dqC :: t') ++ l₂ = bsC :: dqC :: (t' ++ l₂) := by
                simp
              rw [hshape, good_cons_pair]
              exact hg
            · simp [good, hd] at h1
        · by_cases hd : c = dqC
          · subst hd
            rw [good_cons_dq] at h1
            exact absurd h1 (by simp)
          · rw [good_cons_other c t hb hd] at h1
            have hlt : t.length < n := by rw [← hlen]; simp
            have hg := ih t.length hlt t rfl h1
            rw [List.cons_append, good_cons_other c _ hb hd]
            exact hg
  exact fun l₁ => main l₁.length l₁ rfl

/-- A string with no backslash and no double quote is `good`. -/
theorem good_of_clean : ∀ l : List Char, bsC ∉ l → dqC ∉ l → good l = true := by
  intro l
  induction l with
  | nil => simp [good]
  | cons c t ih =>
    intro hb hd
    have hcb : c ≠ bsC := fun h => hb (h ▸ List.mem_cons_self c t)
    have hcd : c ≠ dqC := fun h => hd (h ▸ List.mem_cons_self c t)
    rw [good_cons_other c t hcb hcd]
    exact ih (fun h => hb (List.mem_cons_of_mem c h))
      (fun h => hd (List.mem_cons_of_mem c h))

/-- The half-collapsed escape of a backslash-free string is `good`. -/
theorem good_escspD : ∀ v : List Char, bsC ∉ v → good (escspD v) = true := by
  intro v
  induction v with
  | nil => simp [escspD, good]
  | cons c t ih =>
    intro hb
    have hcb : c ≠ bsC := fun h => hb (h ▸ List.mem_cons_self c t)
    have ht : good (escspD t) = true := ih (fun h => hb (List.mem_cons_of_mem c h))
    by_cases hd : c = dqC
    · subst hd
      have h1 : escspD (dqC :: t) = bsC :: dqC :: escspD t := by simp [escspD]
      rw [h1, good_cons_pair]
      exact ht
    · have h1 : escspD (c :: t) = c :: escspD t := by simp [escspD, hd]
      rw [h1, good_cons_other c _ hcb hd]
      exact ht

/-- A two-character replace distributes over append when the left part
does not end with the pattern's first character. -/
theorem replace2_append (a b : Char) (rep : List Char) :
    ∀ x y : List Char, (∀ e, x.getLast? = some e → e ≠ a) →
      replace2 a b rep (x ++ y) = replace2 a b rep x ++ replace2 a b rep y := by
  have main : ∀ n x y, x.length = n → (∀ e, x.getLast? = some e → e ≠ a) →
      replace2 a b rep (x ++ y) = replace2 a b rep x ++ replace2 a b rep y := by
    intro n
    induction n using Nat.strong_induction_on with
    | _ n ih =>
      intro x y hlen hlast
      match x with
      | [] => simp
      | [c] =>
        have hc : c ≠ a := hlast c rfl
        simp [replace2_cons_ne_fst a b rep c y hc]
      | c :: d :: t =>
        have hlast' : ∀ e, (d :: t).getLast? = some e → e ≠ a := by
          intro e he
          exact hlast e (by rw [List.getLast?_cons_cons]; exact he)
        by_cases hm : c = a ∧ d = b
        · have hx : (c :: d :: t) ++ y = c :: d :: (t ++ y) := by simp
          rw [hx, replace2_cons2, if_pos hm, replace2_cons2, if_pos hm]
          have htlast : ∀ e, t.getLast? = some e → e ≠ a := by
            intro e he
            apply hlast'
            cases t with
            | nil => simp at he
            | cons u us => rw [List.getLast?_cons_cons]; exact he
          have hlt : t.length < n := by rw [← hlen]; simp [List.length_cons]; omega
          rw [ih t.length hlt t y rfl htlast]
          simp
        · have hx : (c :: d :: t) ++ y = c :: ((d :: t) ++ y) := by simp
          have hy : (d :: t) ++ y = d :: (t ++ y) := by simp
          rw [hx, hy, replace2_cons2, if_neg hm, ← hy, replace2_cons2, if_neg hm]
          have hlt : (d :: t).length < n := by rw [← hlen]; simp
          rw [ih (d :: t).length hlt (d :: t) y rfl hlast']
          simp
  exact fun x y => main x.length x y rfl

/-- The last element of a list is one of its members. -/
theorem mem_of_getLast?_eq {α : Type} {l : List α} {e : α}
    (he : l.getLast? = some e) : e ∈ l := by
  have hmem : e ∈ l.getLast? := by rw [he]; rfl
  rcases List.mem_getLast?_eq_getLast hmem with ⟨h, heq⟩
  rw [heq]
  exact List.getLast_mem h

/-- The `escsp` image of a backslash-free string never ends with a
backslash. -/
theorem escsp_getLast_ne_bs : ∀ v : List Char, bsC ∉ v →
    ∀ e, (escsp v).getLast? = some e → e ≠ bsC := by
  intro v
  induction v with
  | nil => intro _ e he; simp [escsp] at he
  | cons c t ih =>
    intro hb e he
    have hcb : c ≠ bsC := fun h => hb (h ▸ List.mem_cons_self c t)
    have htb : bsC ∉ t := fun h => hb (List.mem_cons_of_mem c h)
    by_cases hnil : escsp t = []
    · by_cases hq : c = sqC ∨ c = dqC
      · have h1 : escsp (c :: t) = [bsC, c] := by simp [escsp, hq, hnil]
        rw [h1] at he
        simp at he
        subst he
        rcases hq with h | h
        · subst h; exact bs_ne_sq ∘ Eq.symm
        · subst h; exact bs_ne_dq ∘ Eq.symm
      · have h1 : escsp (c :: t) = [c] := by
          push_neg at hq
          simp [escsp, hq.1, hq.2, hnil]
        rw [h1] at he
        simp at he
        subst he
        exact hcb
    · have h1 : escsp (c :: t) =
          (if c = sqC ∨ c = dqC then [bsC, c] else [c]) ++ escsp t := by
        simp [escsp]
      rw [h1] at he
      rw [List.getLast?_append_of_ne_nil _ hnil] at he
      exact ih htb e he

/-- Lists built from backslash/double-quote-free fragments and escaped
backslash-free values.  This is the shape of a rendered statement after
the per-attribute escaping pass. -/
inductive Built : List Char → Prop
  | nil : Built []
  | clean (s t : List Char) (hb : bsC ∉ s) (hd : dqC ∉ s) (ht : Built t) :
      Built (s ++ t)
  | escv (v t : List Char) (hv : bsC ∉ v) (ht : Built t) : Built (escsp v ++ t)

theorem built_append : ∀ {x y : List Char}, Built x → Built y → Built (x ++ y) := by
  intro x y hx hy
  induction hx with
  | nil => simpa using hy
  | clean s t hb hd _ iht =>
    rw [List.append_assoc]
    exact Built.clean s (t ++ y) hb hd iht
  | escv v t hv _ iht =>
    rw [List.append_assoc]
    exact Built.escv v (t ++ y) hv iht

/-- Collapsing the escaped single quotes of a `Built` string leaves a
`good` string: double quotes stay singly escaped, single quotes become
bare, and no doubly-escaped quote can appear. -/
theorem built_collapse_good : ∀ {l : List Char}, Built l → good (collapseChars l) = true := by
  intro l hl
  induction hl with
  | nil => simp [collapseChars, good]
  | clean s t hb hd _ iht =>
    unfold collapseChars at iht ⊢
    rw [replace2_append bsC sqC [sqC] s t
      (fun e he hea => hb (hea ▸ mem_of_getLast?_eq he))]
    rw [replace2_of_not_mem bsC sqC [sqC] s hb]
    exact good_append _ iht s (good_of_clean s hb hd)
  | escv v t hv _ iht =>
    unfold collapseChars at iht ⊢
    rw [replace2_append bsC sqC [sqC] (escsp v) t (escsp_getLast_ne_bs v hv)]
    rw [replace2_sq_escsp]
    exact good_append _ iht _ (good_escspD v hv)

/-! ### Metamodel entities

bento_meta entity objects are embedded as one inductive tree.  The
attribute dictionary (`attspec`-ordered simple attributes) is an
association list; an attribute whose value is `None` in Python is simply
absent from the list (this matches `get_attr_dict`, which drops `None`
values, and `escape_quotes_in_attr`/`cypherize_entity`, which skip them).
Relational attributes (`tags`, `origin`, `terms`, `concept`, `value_set`,
`props`, edge `src`/`dst`, tag `_parent`) are separate fields.
-/

/-- Scalar attribute values.  `cypherize_entity` keeps booleans as
booleans (its `get_attr_dict_with_bool` workaround) and stringifies the
rest, which are already strings. -/
inductive AVal
  | s (v : String)
  | b (v : Bool)
deriving DecidableEq

/-- The concrete bento_meta entity classes handled by the compiler. -/
inductive EKind
  | node
  | edge
  | property
  | term
  | valueSet
  | concept
  | tag
  | origin
  | modelEnt
deriving DecidableEq

/-- `Entity.get_label()`: the graph label of each entity class (bento_meta
maps `Edge` to the `relationship` node label and `ValueSet` to
`value_set`). -/
def EKind.label : EKind → String
  | .node => "node"
  | .edge => "relationship"
  | .property => "property"
  | .term => "term"
  | .valueSet => "value_set"
  | .concept => "concept"
  | .tag => "tag"
  | .origin => "origin"
  | .modelEnt => "model"

/-- A bento_meta entity: kind, simple-attribute dictionary, and the
relational attributes the converter traverses. -/
inductive Ent where
  | mk (kind : EKind) (attrs : List (String × AVal))
      (tags : List (String × Ent)) (origin : Option Ent) (terms : List Ent)
      (concept : Option Ent) (valueSet : Option Ent) (props : List (String × Ent))
      (src : Option Ent) (dst : Option Ent) (parent : Option Ent)

def Ent.kind : Ent → EKind
  | .mk k _ _ _ _ _ _ _ _ _ _ => k

def Ent.attrs : Ent → List (String × AVal)
  | .mk _ a _ _ _ _ _ _ _ _ _ => a

def Ent.tags : Ent → List (String × Ent)
  | .mk _ _ t _ _ _ _ _ _ _ _ => t

def Ent.origin : Ent → Option Ent
  | .mk _ _ _ o _ _ _ _ _ _ _ => o

def Ent.terms : Ent → List Ent
  | .mk _ _ _ _ tm _ _ _ _ _ _ => tm

def Ent.concept : Ent → Option Ent
  | .mk _ _ _ _ _ c _ _ _ _ _ => c

def Ent.valueSet : Ent → Option Ent
  | .mk _ _ _ _ _ _ v _ _ _ _ => v

def Ent.props : Ent → List (String × Ent)
  | .mk _ _ _ _ _ _ _ p _ _ _ => p

def Ent.src : Ent → Option Ent
  | .mk _ _ _ _ _ _ _ _ s _ _ => s

def Ent.dst : Ent → Option Ent
  | .mk _ _ _ _ _ _ _ _ _ d _ => d

def Ent.parent : Ent → Option Ent
  | .mk _ _ _ _ _ _ _ _ _ _ pa => pa

/-- Replace the attribute dictionary of an entity. -/
def Ent.withAttrs : Ent → List (String × AVal) → Ent
  | .mk k _ t o tm c v p s d pa, a => .mk k a t o tm c v p s d pa

/-- Replace the tags of an entity. -/
def Ent.withTags : Ent → List (String × Ent) → Ent
  | .mk k a _ o tm c v p s d pa, t => .mk k a t o tm c v p s d pa

/-- Replace the value set of an entity. -/
def Ent.withValueSet : Ent → Option Ent → Ent
  | .mk k a t o tm c _ p s d pa, v => .mk k a t o tm c v p s d pa

/-- Replace the parent reference of an entity (tag `_parent`). -/
def Ent.withParent : Ent → Option Ent → Ent
  | .mk k a t o tm c v p s d _, pa => .mk k a t o tm c v p s d pa

/-- Replace the props of an entity. -/
def Ent.withProps : Ent → List (String × Ent) → Ent
  | .mk k a t o tm c v _ s d pa, p => .mk k a t o tm c v p s d pa

/-- A plain entity with no relational attributes. -/
def mkEnt (k : EKind) (a : List (String × AVal)) : Ent :=
  .mk k a [] none [] none none [] none none none

/-- Dictionary lookup in an attribute association list. -/
def lookupKey (l : List (String × AVal)) (k : String) : Option AVal :=
  match l with
  | [] => none
  | p :: rest => if p.1 = k then some p.2 else lookupKey rest k

/-- Dictionary `pop`/`del` in an attribute association list. -/
def eraseKey (l : List (String × AVal)) (k : String) : List (String × AVal) :=
  l.filter (fun p => decide (p.1 ≠ k))

/-- Python `setattr`: overwrite the value when the key is present,
append it otherwise. -/
def setKey (l : List (String × AVal)) (k : String) (v : AVal) :
    List (String × AVal) :=
  if l.any (fun p => decide (p.1 = k)) then
    l.map (fun p => if p.1 = k then (k, v) else p)
  else
    l ++ [(k, v)]

/-- `getattr(entity, attr, None)` restricted to simple attributes. -/
def getAttr (e : Ent) (k : String) : Option AVal := lookupKey e.attrs k

/-- Python truthiness of an optional attribute value
(`None`, `""` and `False` are falsy). -/
def truthyA : Option AVal → Bool
  | none => false
  | some (.s v) => decide (v ≠ "")
  | some (.b b) => b

/-- `escape_quotes_in_attr` on one attribute entry: string values are
unescaped and re-escaped, other values are untouched. -/
def escapeAttrs (l : List (String × AVal)) : List (String × AVal) :=
  l.map fun p =>
    match p.2 with
    | .s v => (p.1, AVal.s (escapeStr v))
    | .b b => (p.1, AVal.b b)

/-- `escape_quotes_in_attr(entity)`: the in-place quote-escaping pass on
an entity, embedded as a function returning the mutated entity. -/
def escape_quotes_in_attr (e : Ent) : Ent := e.withAttrs (escapeAttrs e.attrs)

theorem escapeAttrs_idem (l : List (String × AVal)) :
    escapeAttrs (escapeAttrs l) = escapeAttrs l := by
  unfold escapeAttrs
  rw [List.map_map]
  apply List.map_congr_left
  intro p _
  cases hp : p.2 with
  | s v => simp [hp, Function.comp, escapeStr_idem]
  | b b => simp [hp, Function.comp]

theorem attrs_withAttrs (e : Ent) (a : List (String × AVal)) :
    (e.withAttrs a).attrs = a := by
  cases e; rfl

theorem kind_withAttrs (e : Ent) (a : List (String × AVal)) :
    (e.withAttrs a).kind = e.kind := by
  cases e; rfl

theorem withAttrs_withAttrs (e : Ent) (a b : List (String × AVal)) :
    (e.withAttrs a).withAttrs b = e.withAttrs b := by
  cases e; rfl

/-- Value equality of entities as used by the converter's dedup list and
by `separate_shared_props`.  Modelled from the spec: two entities are
equal iff their label and full attribute map match. -/
def entEq (a b : Ent) : Bool :=
  decide (a.kind = b.kind ∧ a.attrs = b.attrs)

/-! ### minicypher property-graph patterns and clauses

The minicypher library is an external dependency whose sources are not in
the repository; its rendering conventions are modelled from the spec
(§4.2) and are pinned down exactly by the repository's unit tests
(`tests/test_cypher_utils.py`, `tests/test_cde_cypher.py`).
-/

/-- A property-graph node pattern (minicypher `N`): variable, label and
property map.  An empty label renders as a bare variable with
properties. -/
structure PGN where
  var : String
  label : String
  props : List (String × AVal)
deriving DecidableEq

/-- Pattern fragments (minicypher `N` / plain var / `T` triples /
raw strings).  A nested left triple renders exactly like a minicypher
`G` path whose second triple hangs off the first one's destination. -/
inductive Pat
  | pnode (n : PGN)
  | pvar (v : String)
  | ptrip (src : Pat) (rvar : String) (rtype : String) (dst : Pat)
  | praw (s : String)
deriving DecidableEq

/-- Rendering of one scalar value inside a pattern: strings are wrapped
in single quotes, booleans render as literal `true` / `false`. -/
def renderAVal : AVal → String
  | .s v => "'" ++ v ++ "'"
  | .b v => if v then "true" else "false"

/-- Join strings with a separator (the behaviour of
`str.join` / `String.intercalate`, in a shape convenient for
induction). -/
def joinSep (sep : String) : List String → String
  | [] => ""
  | s :: rest =>
    s ++ (match rest with
          | [] => ""
          | _ :: _ => sep ++ joinSep sep rest)

/-- Rendering of a property map: `\x7bk1:v1,k2:v2\x7d` with no spaces
after the commas, preceded by one space; empty maps render as nothing. -/
def renderProps (l : List (String × AVal)) : String :=
  match l with
  | [] => ""
  | _ =>
    " \x7b" ++ joinSep "," (l.map fun p => p.1 ++ ":" ++ renderAVal p.2)
      ++ "\x7d"

/-- Rendering of a node pattern, e.g. `(n0:term \x7bvalue:'x'\x7d)`. -/
def renderPGN (n : PGN) : String :=
  "(" ++ n.var ++ (if n.label = "" then "" else ":" ++ n.label)
    ++ renderProps n.props ++ ")"

/-- Rendering of a relationship, e.g. `[r0:has_tag]` or `[:represents]`
for an anonymous relationship. -/
def renderRel (rvar rtype : String) : String :=
  "[" ++ rvar ++ ":" ++ rtype ++ "]"

/-- Rendering of a pattern fragment. -/
def renderPat : Pat → String
  | .pnode n => renderPGN n
  | .pvar v => "(" ++ v ++ ")"
  | .ptrip src rvar rtype dst =>
      renderPat src ++ "-" ++ renderRel rvar rtype ++ "->" ++ renderPat dst
  | .praw s => s

/-- minicypher clauses used by the repository, plus the raw string
fragments `Statement` accepts. -/
inductive Clause
  | matchC (pats : List Pat)
  | optMatch (p : Pat)
  | mergeC (p : Pat)
  | createC (p : Pat)
  | whereC (args : List String) (op : String)
  | withC (args : List String)
  | onCreateSet (v : String) (val : AVal)
  | forEachC
  | deleteC (s : String)
  | detachDeleteC (s : String)
  | raw (s : String)
deriving DecidableEq

/-- Rendering of one clause to its substring of the statement. -/
def renderClause : Clause → String
  | .matchC pats => "MATCH " ++ joinSep ", " (pats.map renderPat)
  | .optMatch p => "OPTIONAL MATCH " ++ renderPat p
  | .mergeC p => "MERGE " ++ renderPat p
  | .createC p => "CREATE " ++ renderPat p
  | .whereC args op => "WHERE " ++ joinSep (" " ++ op ++ " ") args
  | .withC args => "WITH " ++ joinSep ", " args
  | .onCreateSet v val => "ON CREATE SET " ++ v ++ "._commit = " ++ renderAVal val
  | .forEachC => "FOREACH "
  | .deleteC s => "DELETE " ++ s
  | .detachDeleteC s => "DETACH DELETE " ++ s
  | .raw s => s

/-- A minicypher `Statement`: an ordered list of clauses rendered joined
by single spaces. -/
def Stmt : Type := List Clause

instance : DecidableEq Stmt := inferInstanceAs (DecidableEq (List Clause))

/-- `str(statement)`: clause renderings joined by single spaces. -/
def renderStmt (s : Stmt) : String :=
  joinSep " " (s.map renderClause)

/-! ### `cypher_utils.py` -/

/-- `cypherize_entity(entity)`: represent an entity as a property-graph
node carrying its label and its non-`None` simple attributes (booleans
preserved).  The variable name is determined by the process-wide counter,
which every statement builder resets first; the caller passes the
resulting name. -/
def cypherize_entity (e : Ent) (var : String) : PGN :=
  ⟨var, e.kind.label, e.attrs⟩

/-- `create_entity_cypher_stmt(entity)`: forward statement and rollback
for one entity, together with the entity as mutated by the in-place
escaping pass.  Term/ValueSet/Concept entities are merged (commit marker
stripped from the merge pattern and re-applied in an `ON CREATE SET`
suffix; rollback is the no-op statement `empty`); all other kinds are
created, with a `MATCH`/`DETACH DELETE` rollback. -/
def create_entity_cypher_stmt (e : Ent) : (Stmt × Stmt) × Ent :=
  let e' := escape_quotes_in_attr e
  -- reset_pg_ent_counter(): the entity node gets variable n0
  let n0 := cypherize_entity e' "n0"
  let n1 := if e'.kind = .property then { n0 with props := eraseKey n0.props "_parent_handle" }
            else n0
  if e'.kind = .term ∨ e'.kind = .valueSet ∨ e'.kind = .concept then
    match lookupKey n1.props "_commit" with
    | none => (([Clause.mergeC (Pat.pnode n1)], [Clause.raw "empty"]), e')
    | some commit =>
      let n2 := { n1 with props := eraseKey n1.props "_commit" }
      (([Clause.mergeC (Pat.pnode n2), Clause.onCreateSet "n0" commit],
        [Clause.raw "empty"]), e')
  else
    (([Clause.createC (Pat.pnode n1)],
      [Clause.matchC [Pat.pnode n1], Clause.detachDeleteC "(n0)"]), e')

/-- `create_relationship_cypher_stmt(src, rel, dst)`: match both
endpoints and merge the relationship; rollback matches the triple and
deletes the relationship.  Commit markers are stripped from endpoints
labelled `term`/`value_set` and the owner handle from endpoints labelled
`property`. -/
def create_relationship_cypher_stmt (src : Ent) (rel : String) (dst : Ent) :
    Stmt × Stmt :=
  -- reset_pg_ent_counter(): src is n0, dst is n1, the relationship is r0
  let strip : PGN → PGN := fun n =>
    let n' := if n.label = "term" ∨ n.label = "value_set" then
                { n with props := eraseKey n.props "_commit" }
              else n
    if n'.label = "property" then { n' with props := eraseKey n'.props "_parent_handle" }
    else n'
  let csrc := strip (cypherize_entity src "n0")
  let cdst := strip (cypherize_entity dst "n1")
  ([Clause.matchC [Pat.pnode csrc, Pat.pnode cdst],
    Clause.mergeC (Pat.ptrip (Pat.pvar "n0") "r0" rel (Pat.pvar "n1"))],
   [Clause.matchC [Pat.ptrip (Pat.pnode csrc) "r0" rel (Pat.pnode cdst)],
    Clause.deleteC "r0"])

/-- The tag node pattern used by the synonym resolver. -/
def mappingTagPGN (var mappingSource : String) : PGN :=
  ⟨var, "tag", [("key", AVal.s "mapping_source"), ("value", AVal.s mappingSource)]⟩

/-- `generate_cypher_to_link_term_synonyms(entity_1, entity_2,
mapping_source, _commit)`: one statement that finds or creates a shared
concept for two terms.  Variables follow the construction-order counter
(`n0`/`n1` the two terms, `n2`/`n3` their optional concepts, `n4`/`n5`
the matched tag nodes, `n6` the new concept, `n7` its created tag). -/
def generate_cypher_to_link_term_synonyms (e1 e2 : Ent) (mappingSource : String)
    (commit : Option String) : Stmt :=
  let c1 := cypherize_entity e1 "n0"
  let c2 := cypherize_entity e2 "n1"
  let ent1path := Pat.ptrip
    (Pat.ptrip (Pat.pvar "n0") "r0" "represents" (Pat.pnode ⟨"n2", "concept", []⟩))
    "r2" "has_tag" (Pat.pnode (mappingTagPGN "n4" mappingSource))
  let ent2path := Pat.ptrip
    (Pat.ptrip (Pat.pvar "n1") "r1" "represents" (Pat.pnode ⟨"n3", "concept", []⟩))
    "r3" "has_tag" (Pat.pnode (mappingTagPGN "n5" mappingSource))
  let newConcept : PGN :=
    ⟨"n6", "concept", match commit with
      | some c => [("_commit", AVal.s c)]
      | none => []⟩
  let c1 := { c1 with props := eraseKey c1.props "_commit" }
  let c2 := { c2 with props := eraseKey c2.props "_commit" }
  [Clause.matchC [Pat.pnode c1, Pat.pnode c2],
   Clause.whereC ["(n0)", "<>", "(n1)"] "",
   Clause.withC ["(n0)", "(n1)"],
   Clause.optMatch ent1path,
   Clause.withC ["(n0)", "(n1)", "(n2)"],
   Clause.raw "LIMIT 1",
   Clause.optMatch ent2path,
   Clause.withC ["(n0)", "(n1)", "(n2)", "(n3)"],
   Clause.raw "LIMIT 1",
   Clause.withC ["(n0)", "(n1)"],
   Clause.raw ",",
   Clause.raw "CASE WHEN (n2) IS NOT NULL THEN (n2)",
   Clause.raw "WHEN (n3) IS NOT NULL THEN (n3)",
   Clause.raw "ELSE NULL END AS existing_concept ",
   Clause.forEachC,
   Clause.raw "(_ IN CASE WHEN existing_concept IS NOT NULL THEN [1] ELSE [] END |",
   Clause.mergeC (Pat.praw "(n0)-[:represents]->(existing_concept)"),
   Clause.mergeC (Pat.praw "(n1)-[:represents]->(existing_concept)"),
   Clause.raw ")",
   Clause.forEachC,
   Clause.raw "(_ IN CASE WHEN existing_concept IS NULL THEN [1] ELSE [] END |",
   Clause.createC (Pat.pnode newConcept),
   Clause.createC (Pat.ptrip (Pat.pvar "n6") "r4" "has_tag"
     (Pat.pnode (mappingTagPGN "n7" mappingSource))),
   Clause.createC (Pat.ptrip (Pat.pvar "n0") "r5" "represents" (Pat.pvar "n6")),
   Clause.createC (Pat.ptrip (Pat.pvar "n1") "r6" "represents" (Pat.pvar "n6")),
   Clause.raw ")"]

/-! ### Match-clause generation (`generate_match_clause`, `match_edge`,
`match_prop`, `match_tag`) -/

theorem Ent.sizeOf_parent {t p : Ent} (h : t.parent = some p) :
    sizeOf p < sizeOf t := by
  cases t with
  | mk k a tg o tm c v pr s d pa =>
    simp only [Ent.parent] at h
    subst h
    simp only [Ent.mk.sizeOf_spec, Option.some.sizeOf_spec]
    omega

/-- `match_edge(edge, ent_c)`: locate an edge through its
`has_src`/`has_dst` endpoint nodes.  A missing endpoint raises (the
source calls `.get_attr_dict()` on `None`).  The variable names and the
rendering of the minicypher `G` fan-out path are modelled from the
spec. -/
def match_edge (edge : Ent) (entC : PGN) : Except String Clause :=
  match edge.src, edge.dst with
  | some s, some d =>
    let srcC : PGN := ⟨"n1", "node", s.attrs⟩
    let dstC : PGN := ⟨"n2", "node", d.attrs⟩
    .ok (Clause.matchC
      [Pat.ptrip (Pat.pnode entC) "r0" "has_src" (Pat.pnode srcC),
       Pat.ptrip (Pat.pvar entC.var) "r1" "has_dst" (Pat.pnode dstC)])
  | _, _ => .error "Edge missing src or dst node"

/-- `match_prop(prop, ent_c)`: locate a property through its owning
node's `has_property` edge; raises when the property has no truthy
`_parent_handle`. -/
def match_prop (prop : Ent) (entC : PGN) : Except String Clause :=
  if truthyA (getAttr prop "_parent_handle") = false then
    .error "Property missing parent handle"
  else
    let ph := (getAttr prop "_parent_handle").getD (AVal.s "")
    let parC : PGN := ⟨"n1", "", [("handle", ph)]⟩
    .ok (Clause.matchC
      [Pat.ptrip (Pat.pnode parC) "r0" "has_property" (Pat.pnode entC)])

mutual

/-- `generate_match_clause(entity, ent_c)`: dispatch on the entity kind;
properties have the `_parent_handle` attribute removed from their
pattern first. -/
def generate_match_clause (entity : Ent) (entC : PGN) : Except String Clause :=
  if entity.kind = .edge then match_edge entity entC
  else if entity.kind = .property then
    match_prop entity { entC with props := eraseKey entC.props "_parent_handle" }
  else if entity.kind = .tag then match_tag entity entC
  else .ok (Clause.matchC [Pat.pnode entC])
termination_by (sizeOf entity, 1)
decreasing_by
  exact Prod.Lex.right _ (by omega)

/-- `match_tag(tag, ent_c)`: locate a tag through its parent's own MATCH
pattern (rendered with the 6-character `MATCH ` prefix stripped, the
source's long-match workaround) plus a `has_tag` edge; raises when the
tag has no parent, and propagates a failure of the parent's own match
generation. -/
def match_tag (tag : Ent) (entC : PGN) : Except String Clause :=
  match h : tag.parent with
  | none => .error "Tag missing parent"
  | some parent =>
    let parC : PGN := ⟨"n1", parent.kind.label, eraseKey parent.attrs "_parent_handle"⟩
    match generate_match_clause parent parC with
    | .error msg => .error msg
    | .ok parClause =>
      let parStr := (renderClause parClause).drop 6
      .ok (Clause.matchC [Pat.praw parStr,
        Pat.ptrip (Pat.pvar parC.var) "r0" "has_tag" (Pat.pnode entC)])
termination_by (sizeOf tag, 0)
decreasing_by
  exact Prod.Lex.left _ _ (Ent.sizeOf_parent h)

end

/-! ### `model_cypher.py`: models, shared-property separation,
version stamping -/

/-!
`entSize` is a relational-structure size for entities, used as the
termination measure of the converter's traversal.  It deliberately
ignores the attribute dictionary and the tags (the traversal never
recurses into a tag's subtree, and the in-place mutations before
recursive calls only touch attributes and tags).
-/

mutual

def entSize : Ent → Nat
  | .mk _ _ _ _ tm c v pr _ _ _ =>
    1 + entsSize tm + optEntSize c + optEntSize v + pentsSize pr

def entsSize : List Ent → Nat
  | [] => 0
  | e :: r => entSize e + entsSize r

def optEntSize : Option Ent → Nat
  | none => 0
  | some e => 1 + entSize e

def pentsSize : List (String × Ent) → Nat
  | [] => 0
  | p :: r => entSize p.2 + pentsSize r

end

theorem entSize_pos (e : Ent) : 1 ≤ entSize e := by
  cases e; rw [entSize]; omega

theorem entSize_withAttrs (e : Ent) (a : List (String × AVal)) :
    entSize (e.withAttrs a) = entSize e := by
  cases e; rfl

theorem entSize_withTags (e : Ent) (t : List (String × Ent)) :
    entSize (e.withTags t) = entSize e := by
  cases e; rw [Ent.withTags, entSize, entSize]

theorem entSize_escape (e : Ent) :
    entSize (escape_quotes_in_attr e) = entSize e := by
  unfold escape_quotes_in_attr
  exact entSize_withAttrs e _

theorem terms_withAttrs (e : Ent) (a : List (String × AVal)) :
    (e.withAttrs a).terms = e.terms := by
  cases e; rfl

theorem concept_withAttrs (e : Ent) (a : List (String × AVal)) :
    (e.withAttrs a).concept = e.concept := by
  cases e; rfl

theorem entSize_concept {e c : Ent} (h : e.concept = some c) :
    entsSize c.terms + 2 ≤ entSize e := by
  cases e with
  | mk k a tg o tm cf v pr s d pa =>
    simp only [Ent.concept] at h
    subst h
    rw [entSize, optEntSize]
    have hc : entsSize c.terms ≤ entSize c - 1 := by
      cases c; rw [entSize, Ent.terms]; omega
    have := entSize_pos c
    omega

theorem entSize_valueSet {e v : Ent} (h : e.valueSet = some v) :
    entsSize v.terms + 2 ≤ entSize e := by
  cases e with
  | mk k a tg o tm cf vf pr s d pa =>
    simp only [Ent.valueSet] at h
    subst h
    rw [entSize, optEntSize]
    have hc : entsSize v.terms ≤ entSize v - 1 := by
      cases v; rw [entSize, Ent.terms]; omega
    have := entSize_pos v
    omega

/-- A bento_meta `Model`: handle, version, source uri, and the keyed
entity collections the converter walks. -/
structure Mdl where
  handle : String
  version : Option String
  uri : Option String
  nodes : List (String × Ent)
  edges : List (String × Ent)
  props : List ((String × String) × Ent)
  terms : List Ent

/-- Stamp the model version onto one entity lacking a truthy `version`
attribute (setting `None` leaves the sparse dictionary unchanged, like
`setattr(e, "version", None)` leaves the attribute `None`). -/
def stampVersion (mv : Option String) (e : Ent) : Ent :=
  if truthyA (getAttr e "version") then e
  else
    match mv with
    | some v => e.withAttrs (setKey e.attrs "version" (AVal.s v))
    | none => e

/-- `add_version_to_model_ents(model)`: stamp every node, edge and prop
lacking a version with the model's version.  In Python the entries of
`model.props` alias the property objects embedded in the nodes and
edges, so the embedding stamps both sides of the aliasing. -/
def add_version_to_model_ents (m : Mdl) : Mdl :=
  let stampEmbedded : Ent → Ent := fun e =>
    let e := stampVersion m.version e
    e.withProps (e.props.map fun q => (q.1, stampVersion m.version q.2))
  { m with
    nodes := m.nodes.map fun p => (p.1, stampEmbedded p.2)
    edges := m.edges.map fun p => (p.1, stampEmbedded p.2)
    props := m.props.map fun p => (p.1, stampVersion m.version p.2) }

/-- Modelled from the spec: `make_nanoid` generates a fresh unique
identifier.  Embedded as a deterministic injective function of a counter
threaded through the converter state. -/
def make_nanoid (ctr : Nat) : String := "nanoid" ++ toString ctr

/-- Modelled from the spec: `Entity.dup()` — a duplicate entity carrying
its own copy of the simple attributes; the callers re-attach the
relational attributes (`value_set`) explicitly. -/
def dupEnt (e : Ent) : Ent := mkEnt e.kind e.attrs

/-- Assoc-list overwrite-or-append for keyed entity collections
(Python dict item assignment). -/
def setPropKey (l : List (String × Ent)) (k : String) (v : Ent) :
    List (String × Ent) :=
  if l.any (fun p => decide (p.1 = k)) then
    l.map (fun p => if p.1 = k then (k, v) else p)
  else
    l ++ [(k, v)]

/-- `model.nodes[owner].props[handle] = new_prop`: update the owner's
embedded property; a missing owner raises Python's `KeyError`. -/
def updateNodeProp (nodes : List (String × Ent)) (ownerHandle propHandle : String)
    (newProp : Ent) : Except String (List (String × Ent)) :=
  match nodes with
  | [] => .error ("KeyError: " ++ ownerHandle)
  | (h, n) :: rest =>
    if h = ownerHandle then
      .ok ((h, n.withProps (setPropKey n.props propHandle newProp)) :: rest)
    else
      match updateNodeProp rest ownerHandle propHandle newProp with
      | .error msg => .error msg
      | .ok rest' => .ok ((h, n) :: rest')

/-- The duplicate built for a second-or-later sighting of a shared
property: `prop.dup()` with a fresh nanoid when the original had a
truthy one, the commit marker re-applied when truthy, and the value set
duplicated when present. -/
def sepDup (prop : Ent) (ctr : Nat) : Ent × Nat :=
  let np := dupEnt prop
  let (np, ctr') :=
    if truthyA (getAttr np "nanoid") then
      (np.withAttrs (setKey np.attrs "nanoid" (AVal.s (make_nanoid ctr))), ctr + 1)
    else (np, ctr)
  let np :=
    if truthyA (getAttr prop "_commit") then
      match getAttr prop "_commit" with
      | some cv => np.withAttrs (setKey np.attrs "_commit" cv)
      | none => np
    else np
  let np :=
    match prop.valueSet with
    | some vs => np.withValueSet (some (dupEnt vs))
    | none => np
  (np, ctr')

/-- The iteration of `separate_shared_props` over `model.props`,
threading the seen-set (value equality) and the nanoid counter, and
rebuilding the nodes and the props map. -/
def sepPropsGo (nodes : List (String × Ent)) :
    List ((String × String) × Ent) → List Ent → Nat →
    Except String (List (String × Ent) × List ((String × String) × Ent) × Nat)
  | [], _, ctr => .ok (nodes, [], ctr)
  | (k, prop) :: rest, seen, ctr =>
    if seen.any (entEq prop) then
      let (np, ctr') := sepDup prop ctr
      match updateNodeProp nodes k.1 k.2 np with
      | .error msg => .error msg
      | .ok nodes' =>
        match sepPropsGo nodes' rest seen ctr' with
        | .error msg => .error msg
        | .ok (nodes'', rest', ctr'') => .ok (nodes'', (k, np) :: rest', ctr'')
    else
      match sepPropsGo nodes rest (seen ++ [prop]) ctr with
      | .error msg => .error msg
      | .ok (nodes', rest', ctr') => .ok (nodes', (k, prop) :: rest', ctr')

/-- `separate_shared_props(model)`: duplicate properties shared by more
than one owner, in place, walking `model.props` in insertion order. -/
def separate_shared_props (m : Mdl) (ctr : Nat) :
    Except String (Mdl × Nat) :=
  match sepPropsGo m.nodes m.props [] ctr with
  | .error msg => .error msg
  | .ok (nodes', props', ctr') =>
    .ok ({ m with nodes := nodes', props := props' }, ctr')

/-! ### `ModelToChangelogConverter`: state and traversal

The converter's `self.cypher_stmts` dictionary holds, for each of the two
statement types, a list of statements and a parallel list of rollbacks
that `add_statement` always extends together; the embedding stores each
type as one list of (statement, rollback) pairs.  `self.added_entities`
is the per-run dedup list.  The nanoid counter stands in for
`make_nanoid`'s fresh-identifier generation.
-/

/-- The converter's mutable state. -/
structure CState where
  nanoidCtr : Nat
  addEnts : List (Stmt × Stmt)
  addRels : List (Stmt × Stmt)
  added : List Ent

/-- The two statement types of `self.cypher_stmts`. -/
inductive StmtType
  | addEntsT
  | addRelsT

/-- `add_statement(stmt_type, stmt, rollback)`. -/
def add_statement (st : CState) (t : StmtType) (stmt rollback : Stmt) : CState :=
  match t with
  | .addEntsT => { st with addEnts := st.addEnts ++ [(stmt, rollback)] }
  | .addRelsT => { st with addRels := st.addRels ++ [(stmt, rollback)] }

/-- `generate_cypher_to_add_entity(entity)`: skip silently when a
value-equal entity was already added (the incoming entity is compared
against the already-escaped stored ones); otherwise build the
creation statement (escaping the entity in place) and record the escaped
entity on the dedup list.  Returns the entity as left by the call's
mutations. -/
def generate_cypher_to_add_entity (st : CState) (e : Ent) : CState × Ent :=
  if st.added.any (entEq e) then (st, e)
  else
    let r := create_entity_cypher_stmt e
    let st' := add_statement st .addEntsT r.1.1 r.1.2
    ({ st' with added := st'.added ++ [r.2] }, r.2)

/-- `generate_cypher_to_add_relationship(src, rel, dst)`. -/
def generate_cypher_to_add_relationship (st : CState) (src : Ent) (rel : String)
    (dst : Ent) : CState :=
  let (stmt, rollback) := create_relationship_cypher_stmt src rel dst
  add_statement st .addRelsT stmt rollback

/-- `if not tag.nanoid: tag.nanoid = make_nanoid()` (and likewise for
edges, props and value sets). -/
def assignNanoid (st : CState) (e : Ent) : CState × Ent :=
  if truthyA (getAttr e "nanoid") then (st, e)
  else
    ({ st with nanoidCtr := st.nanoidCtr + 1 },
     e.withAttrs (setKey e.attrs "nanoid" (AVal.s (make_nanoid st.nanoidCtr))))

theorem entSize_assignNanoid (st : CState) (e : Ent) :
    entSize (assignNanoid st e).2 = entSize e := by
  unfold assignNanoid
  by_cases h : truthyA (getAttr e "nanoid") = true
  · simp [h]
  · simp [h, entSize_withAttrs]

/-- The entity returned by `create_entity_cypher_stmt` is the escaped
input (every branch performs exactly the in-place escaping pass). -/
theorem snd_create_entity (e : Ent) :
    (create_entity_cypher_stmt e).2 = escape_quotes_in_attr e := by
  unfold create_entity_cypher_stmt
  dsimp only
  split
  · split <;> rfl
  · rfl

theorem entSize_gen_add_entity (st : CState) (e : Ent) :
    entSize (generate_cypher_to_add_entity st e).2 = entSize e := by
  unfold generate_cypher_to_add_entity
  by_cases h : st.added.any (entEq e) = true
  · simp [h]
  · simp [h, snd_create_entity, entSize_escape]

theorem terms_gen_add_entity (st : CState) (e : Ent) :
    (generate_cypher_to_add_entity st e).2.terms = e.terms := by
  unfold generate_cypher_to_add_entity
  by_cases h : st.added.any (entEq e) = true
  · simp [h]
  · simp [h, snd_create_entity, escape_quotes_in_attr, terms_withAttrs]

/-- The loop body of `process_tags`: assign a nanoid and the parent when
missing, add the tag entity and the `has_tag` relationship. -/
def process_tag_list (st : CState) (entity : Ent) :
    List (String × Ent) → CState
  | [] => st
  | (_, tag) :: rest =>
    let (st, tag) := assignNanoid st tag
    let tag :=
      match tag.parent with
      | none => tag.withParent (some entity)
      | some _ => tag
    let (st, tag') := generate_cypher_to_add_entity st tag
    let st := generate_cypher_to_add_relationship st entity "has_tag" tag'
    process_tag_list st entity rest

/-- `process_tags(entity)`. -/
def process_tags (st : CState) (entity : Ent) : CState :=
  process_tag_list st entity entity.tags

/-- `process_origin(entity)`: add the origin entity, the `has_origin`
relationship, and the origin's tags. -/
def process_origin (st : CState) (entity : Ent) : CState :=
  match entity.origin with
  | none => st
  | some og =>
    let (st, og') := generate_cypher_to_add_entity st og
    let st := generate_cypher_to_add_relationship st entity "has_origin" og'
    process_tags st og'

theorem entsSize_cons_lt (x : Ent) (r : List Ent) :
    2 * entsSize r + 1 < 2 * entsSize (x :: r) + 1 := by
  rw [entsSize]
  have := entSize_pos x
  omega

theorem dec_terms_concept (st : CState) (x : Ent) (r : List Ent) :
    2 * entSize (generate_cypher_to_add_entity st x).2 < 2 * entsSize (x :: r) + 1 := by
  rw [entSize_gen_add_entity, entsSize]
  omega

mutual

/-- The loop body of `process_terms(entity)`: add each term, link it
(`represents` towards a Concept owner, `has_term` otherwise), and
process its tags, origin and concept. -/
def process_terms_list (mh : String) (st : CState) (entity : Ent) :
    List Ent → CState
  | [] => st
  | term :: rest =>
    let pr := generate_cypher_to_add_entity st term
    let st := pr.1
    let term' := pr.2
    let st :=
      if entity.kind = .concept then
        generate_cypher_to_add_relationship st term' "represents" entity
      else
        generate_cypher_to_add_relationship st entity "has_term" term'
    let st := process_tags st term'
    let st := process_origin st term'
    let st := process_concept mh st term'
    process_terms_list mh st entity rest
termination_by l => 2 * entsSize l + 1
decreasing_by
  · exact dec_terms_concept _ _ _
  · exact entsSize_cons_lt _ _

/-- `process_concept(entity)`: ensure the concept carries a
`mapping_source` tag (defaulting to the model handle), add it, link it,
and process its tags and terms.  The recursive terms call iterates the
concept's terms, which the preceding mutations leave untouched. -/
def process_concept (mh : String) (st : CState) (entity : Ent) : CState :=
  match h : entity.concept with
  | none => st
  | some c =>
    let c' :=
      if c.tags.any (fun p => decide (p.1 = "mapping_source")) then c
      else c.withTags (c.tags ++
        [("mapping_source",
          mkEnt .tag [("key", AVal.s "mapping_source"), ("value", AVal.s mh)])])
    let pr := generate_cypher_to_add_entity st c'
    let st := pr.1
    let c'' := pr.2
    let st := generate_cypher_to_add_relationship st entity "has_concept" c''
    let st := process_tags st c''
    process_terms_list mh st c'' c.terms
termination_by 2 * entSize entity
decreasing_by
  have := entSize_concept h
  omega

end

/-- `process_value_set(entity)`: assign a nanoid when missing, add the
value set, link it, and process its tags, origin and terms. -/
def process_value_set (mh : String) (st : CState) (entity : Ent) : CState :=
  match entity.valueSet with
  | none => st
  | some vs =>
    let (st, vs) := assignNanoid st vs
    let (st, vs') := generate_cypher_to_add_entity st vs
    let st := generate_cypher_to_add_relationship st entity "has_value_set" vs'
    let st := process_tags st vs'
    let st := process_origin st vs'
    process_terms_list mh st vs' vs'.terms

/-- The loop body of `process_props(entity)`: assign nanoid and owner
handle when missing, add the property, link it, and process its tags,
concept and value set. -/
def process_prop_list (mh : String) (st : CState) (entity : Ent) :
    List (String × Ent) → CState
  | [] => st
  | (_, prop) :: rest =>
    let (st, prop) := assignNanoid st prop
    let prop :=
      if truthyA (getAttr prop "_parent_handle") then prop
      else
        match getAttr entity "handle" with
        | some hv => prop.withAttrs (setKey prop.attrs "_parent_handle" hv)
        | none => prop
    let (st, prop') := generate_cypher_to_add_entity st prop
    let st := generate_cypher_to_add_relationship st entity "has_property" prop'
    let st := process_tags st prop'
    let st := process_concept mh st prop'
    let st := process_value_set mh st prop'
    process_prop_list mh st entity rest

/-- `process_props(entity)`. -/
def process_props (mh : String) (st : CState) (entity : Ent) : CState :=
  process_prop_list mh st entity entity.props

/-- `process_model_nodes()`: add each node, then its tags, concept and
props. -/
def process_node_list (mh : String) (st : CState) :
    List (String × Ent) → CState
  | [] => st
  | (_, node) :: rest =>
    let (st, node') := generate_cypher_to_add_entity st node
    let st := process_tags st node'
    let st := process_concept mh st node'
    let st := process_props mh st node'
    process_node_list mh st rest

/-- `process_model_edges()`: assign a nanoid when missing, add each
edge, its `has_src`/`has_dst` relationships, then tags, concept and
props.  A `None` endpoint raises (`cypherize_entity` dereferences it). -/
def process_edge_list (mh : String) (st : CState) :
    List (String × Ent) → Except String CState
  | [] => .ok st
  | (_, edge) :: rest =>
    let (st, edge) := assignNanoid st edge
    let (st, edge') := generate_cypher_to_add_entity st edge
    match edge'.src, edge'.dst with
    | some s, some d =>
      let st := generate_cypher_to_add_relationship st edge' "has_src" s
      let st := generate_cypher_to_add_relationship st edge' "has_dst" d
      let st := process_tags st edge'
      let st := process_concept mh st edge'
      let st := process_props mh st edge'
      process_edge_list mh st rest
    | _, _ => .error "Edge missing src or dst node"

/-- The loop body of `process_terms_model`: add each term and process
its tags, origin and concept (no structural relationships). -/
def process_simple_terms (mh : String) (st : CState) : List Ent → CState
  | [] => st
  | term :: rest =>
    let (st, term') := generate_cypher_to_add_entity st term
    let st := process_tags st term'
    let st := process_origin st term'
    let st := process_concept mh st term'
    process_simple_terms mh st rest

/-- `process_terms_model()`: flatten every property's terms plus the
model's own terms and process them without structural relationships. -/
def process_terms_model (mh : String) (st : CState) (m : Mdl) : CState :=
  let flatPropTerms := (m.props.map (fun p => p.2.terms)).flatten
  process_simple_terms mh st (flatPropTerms ++ m.terms)

/-- `set_model_version(latest_version)`: build and add the model's own
top-level `model` node, then stamp the model version onto the other
entities when the model has one. -/
def set_model_version (st : CState) (m : Mdl) (latest : Bool) : CState × Mdl :=
  let attrs :=
    [("latest_version", AVal.b latest)]
    ++ (match m.uri with | some u => [("repository", AVal.s u)] | none => [])
    ++ [("handle", AVal.s m.handle)]
    ++ (match m.version with | some v => [("version", AVal.s v)] | none => [])
    ++ [("name", AVal.s m.handle)]
  let modelEnt := mkEnt .modelEnt attrs
  let (st, _) := generate_cypher_to_add_entity st modelEnt
  match m.version with
  | some _ => (st, add_version_to_model_ents m)
  | none => (st, m)

/-! ### Changesets, changelogs, and `convert_model_to_changelog` -/

/-- A liquichange `Changeset`: stringified sequential id, author, the
rendered statement body, and an optional rollback body. -/
structure Changeset where
  id : String
  author : Option String
  body : String
  rollback : Option String
deriving DecidableEq

/-- The final loop of `convert_model_to_changelog`: each (statement,
rollback) pair becomes one changeset; the statement is rendered and its
escaped single quotes collapsed (`str(stmt).replace("\\'", "'")`); ids
count up from `startId`. -/
def changesets_of (author : Option String) (addRollback : Bool) (startId : Nat) :
    List (Stmt × Stmt) → List Changeset
  | [] => []
  | (stmt, rollback) :: rest =>
    { id := toString startId
      author := author
      body := collapseStr (renderStmt stmt)
      rollback := if addRollback then some (renderStmt rollback) else none }
      :: changesets_of author addRollback (startId + 1) rest

/-- The state-building part of `convert_model_to_changelog`: shared-prop
separation, optional version override, the model node, then the
node/edge traversal (or the terms-only traversal). -/
def convertAux (m : Mdl) (modelVersion : Option String) (latest : Bool)
    (termsOnly : Bool) : Except String CState :=
  match separate_shared_props m 0 with
  | .error msg => .error msg
  | .ok (m1, ctr) =>
    let m2 :=
      match modelVersion with
      | some v => { m1 with version := some v }
      | none => m1
    let st0 : CState := ⟨ctr, [], [], []⟩
    let pr := set_model_version st0 m2 latest
    let st := pr.1
    let m3 := pr.2
    if termsOnly then .ok (process_terms_model m3.handle st m3)
    else
      let st := process_node_list m3.handle st m3.nodes
      process_edge_list m3.handle st m3.edges

/-- `convert_model_to_changelog(author, model_version, latest_version)`:
run the traversal, then number the entity-creation statements followed
by the relationship-creation statements into changesets with sequential
ids starting at 1. -/
def convert_model_to_changelog (m : Mdl) (author : String)
    (modelVersion : Option String) (latestVersion : Bool)
    (addRollback : Bool) (termsOnly : Bool) : Except String (List Changeset) :=
  match convertAux m modelVersion latestVersion termsOnly with
  | .error msg => .error msg
  | .ok st => .ok (changesets_of (some author) addRollback 1 (st.addEnts ++ st.addRels))

/-! ### `cde_cypher.py`: the annotation converter -/

/-- One value of a permissible-value record: a scalar field or the
nested synonyms list. -/
inductive PVV
  | s (v : Option String)
  | syns (l : List (List (String × Option String)))
deriving DecidableEq

/-- A permissible-value record: a dictionary with scalar fields and a
`synonyms` entry. -/
def PV : Type := List (String × PVV)

instance : DecidableEq PV := inferInstanceAs (DecidableEq (List (String × PVV)))

/-- An `AnnotationSpec` (`datatypes.py`): the CDE annotation's attrs and
the permissible-value list (entries may be `None`).  The `entity` member
is only used for logging and is not embedded. -/
structure AnnotationSpec where
  annotationAttrs : List (String × Option String)
  value_set : List (Option PV)
deriving DecidableEq

/-- The optional `_commit` property entry on a newly created node (a
`None` marker contributes no property). -/
def commitEntry : Option String → List (String × AVal)
  | some c => [("_commit", AVal.s c)]
  | none => []

/-- Python `dict.get(k, default)`: the default only applies when the key
is absent; a key present with value `None` yields `None`. -/
def dictGetD (l : List (String × Option String)) (k : String) (d : String) :
    Option String :=
  match l with
  | [] => some d
  | p :: rest => if p.1 = k then p.2 else dictGetD rest k d

/-- Python f-string interpolation of a possibly-`None` value. -/
def strOfOpt : Option String → String
  | some s => s
  | none => "None"

/-- Lookup in a permissible-value record. -/
def pvLookup (pv : PV) (k : String) : Option PVV :=
  match pv with
  | [] => none
  | p :: rest => if p.1 = k then some p.2 else pvLookup rest k

/-- Python `dict.pop(k)`: the value plus the dictionary without the key;
raises `KeyError` when the key is absent. -/
def pvPop (pv : PV) (k : String) : Except String (PVV × PV) :=
  match pvLookup pv k with
  | none => .error ("KeyError: " ++ k)
  | some v => .ok (v, pv.filter (fun p => decide (p.1 ≠ k)))

/-- The `Term` attribute specification order observed in the rendered
patterns (bento_meta iterates `attspec`, not the init dictionary). -/
def termAttspec : List String :=
  ["nanoid", "value", "origin_id", "origin_version", "origin_definition",
   "origin_name"]

/-- `Term(attrs_dict)`: build a term entity from the dictionary's keys
that belong to the attribute spec, in spec order, dropping `None` values
(and dropping non-spec keys such as `ncit_concept_codes`). -/
def mkTermFromDict (l : List (String × Option String)) : Ent :=
  mkEnt .term (termAttspec.filterMap fun k =>
    match dictGetD l k "" with
    | some v =>
      if l.any (fun p => decide (p.1 = k)) then some (k, AVal.s v) else none
    | none => none)

/-- The scalar fields of a permissible-value record as a string
dictionary (the synonyms entry is not scalar and never in the
attribute spec). -/
def pvScalars (pv : PV) : List (String × Option String) :=
  pv.filterMap fun p =>
    match p.2 with
    | .s v => some (p.1, v)
    | .syns _ => none

/-- The per-permissible-value loop body of
`convert_annotation_to_changesets`: pop the synonyms, build and merge
the PV term, merge the `has_term` relationship, then merge each synonym
term and link it to the PV term through the synonym resolver (mapping
source `caDSR` for NCIt synonyms, `NCIm` otherwise).  Returns the
accumulated statements and the mutated (popped) records. -/
def cdePVLoop (cdeVs : Ent) (commit : Option String) :
    List (Option PV) → Except String (List Stmt × List (Option PV))
  | [] => .ok ([], [])
  | pvOpt :: rest =>
    match pvOpt with
    | none =>
      match cdePVLoop cdeVs commit rest with
      | .error msg => .error msg
      | .ok (stmts, rest') => .ok (stmts, none :: rest')
    | some pv =>
      if pv = ([] : PV) then
        match cdePVLoop cdeVs commit rest with
        | .error msg => .error msg
        | .ok (stmts, rest') => .ok (stmts, some pv :: rest')
      else
        match pvPop pv "synonyms" with
        | .error msg => .error msg
        | .ok (synV, pv') =>
          let synonyms :=
            match synV with
            | .syns l => l
            | .s _ => []
          let pvTerm :=
            (mkTermFromDict (pvScalars pv')).withAttrs
              (match commit with
               | some c =>
                 setKey (mkTermFromDict (pvScalars pv')).attrs "_commit" (AVal.s c)
               | none => (mkTermFromDict (pvScalars pv')).attrs)
          let r1 := create_entity_cypher_stmt pvTerm
          let pvTerm' := r1.2
          let relStmt := (create_relationship_cypher_stmt cdeVs "has_term" pvTerm').1
          let synStmts := synonyms.flatMap fun synAttrs =>
            let synTerm := mkTermFromDict synAttrs
            let mappingSource :=
              if getAttr synTerm "origin_name" = some (AVal.s "NCIt") then "caDSR"
              else "NCIm"
            let r2 := create_entity_cypher_stmt synTerm
            [r2.1.1,
             generate_cypher_to_link_term_synonyms pvTerm' r2.2 mappingSource commit]
          match cdePVLoop cdeVs commit rest with
          | .error msg => .error msg
          | .ok (stmts, rest') =>
            .ok (([r1.1.1, relStmt] ++ synStmts) ++ stmts, some pv' :: rest')

/-- `convert_annotation_to_changesets(annotation, changeset_id, author,
_commit)`: skip annotations without permissible values; otherwise merge
the caDSR value set, process every permissible value, and number every
accumulated statement into rollback-free changesets starting at
`changeset_id`.  Returns the changesets together with the mutated
annotation (the `synonyms` keys are popped in place). -/
def convert_annotation_to_changesets (ann : AnnotationSpec) (changesetId : Nat)
    (author : Option String) (commit : Option String) :
    Except String (List Changeset × AnnotationSpec) :=
  if ann.value_set = [] then
    .ok ([], ann)
  else
    let baseUrl := "https://cadsrapi.cancer.gov/rad/NCIAPI/1.0/api/DataElement/"
    let cdeId := strOfOpt (dictGetD ann.annotationAttrs "origin_id" "")
    let cdeVer := (dictGetD ann.annotationAttrs "origin_version" "").getD ""
    let url := baseUrl ++ cdeId ++ (if cdeVer ≠ "" then "?version=" ++ cdeVer else "")
    let vsAttrs :=
      [("handle", AVal.s (cdeId ++ "|" ++ cdeVer)), ("url", AVal.s url)]
      ++ commitEntry commit
    let r0 := create_entity_cypher_stmt (mkEnt .valueSet vsAttrs)
    let cdeVs := r0.2
    match cdePVLoop cdeVs commit ann.value_set with
    | .error msg => .error msg
    | .ok (stmts, vset') =>
      let allStmts := r0.1.1 :: stmts
      let changesets := mkCdeChangesets author changesetId allStmts
      .ok (changesets, { ann with value_set := vset' })
where
  /-- The changeset-building loop at the end of the function: collapse
  escaped single quotes in each rendered statement and number
  sequentially; annotation changesets carry no rollback. -/
  mkCdeChangesets (author : Option String) (csId : Nat) :
      List Stmt → List Changeset
    | [] => []
    | stmt :: rest =>
      { id := toString csId
        author := author
        body := collapseStr (renderStmt stmt)
        rollback := none } :: mkCdeChangesets author (csId + 1) rest

/-! ### Helper lemmas for the claim theorems -/

/-- The escaping pass on one attribute value. -/
def escapeAVal : AVal → AVal
  | .s v => .s (escapeStr v)
  | .b b => .b b

theorem escapeAttrs_eq_map (l : List (String × AVal)) :
    escapeAttrs l = l.map (fun p => (p.1, escapeAVal p.2)) := by
  unfold escapeAttrs escapeAVal
  apply List.map_congr_left
  intro p _
  cases p.2 <;> simp

theorem lookupKey_escapeAttrs (l : List (String × AVal)) (k : String) :
    lookupKey (escapeAttrs l) k = (lookupKey l k).map escapeAVal := by
  rw [escapeAttrs_eq_map]
  induction l with
  | nil => rfl
  | cons p rest ih =>
    by_cases h : p.1 = k
    · simp [lookupKey, h]
    · simp [lookupKey, h, ih]

theorem eraseKey_escapeAttrs (l : List (String × AVal)) (k : String) :
    eraseKey (escapeAttrs l) k = escapeAttrs (eraseKey l k) := by
  rw [escapeAttrs_eq_map, escapeAttrs_eq_map]
  unfold eraseKey
  rw [List.filter_map]
  rfl

theorem lookupKey_eraseKey_self (l : List (String × AVal)) (k : String) :
    lookupKey (eraseKey l k) k = none := by
  induction l with
  | nil => rfl
  | cons p rest ih =>
    by_cases h : p.1 = k
    · simpa [eraseKey, h] using ih
    · simpa [eraseKey, lookupKey, h] using ih

theorem kind_escape (e : Ent) : (escape_quotes_in_attr e).kind = e.kind := by
  unfold escape_quotes_in_attr
  exact kind_withAttrs e _

theorem attrs_escape (e : Ent) :
    (escape_quotes_in_attr e).attrs = escapeAttrs e.attrs := by
  unfold escape_quotes_in_attr
  exact attrs_withAttrs e _

/-- Shared idempotence of the in-place escaping pass. -/
theorem escape_quotes_idem (e : Ent) :
    escape_quotes_in_attr (escape_quotes_in_attr e) = escape_quotes_in_attr e := by
  unfold escape_quotes_in_attr
  rw [attrs_withAttrs, withAttrs_withAttrs, escapeAttrs_idem]

/-- Whether a statement contains a deleting clause. -/
def stmtDeletes (s : Stmt) : Bool :=
  s.any fun c =>
    match c with
    | .deleteC _ => true
    | .detachDeleteC _ => true
    | _ => false

/-! ### C4 -/

/-- C4: the attribute quote-escaping operation is idempotent: applying
`escape_quotes_in_attr` twice leaves every attribute equal to the result
of applying it once, so repeated runs never double-escape. -/
theorem C4_escape_quotes_in_attr_idempotent (e : Ent) :
    escape_quotes_in_attr (escape_quotes_in_attr e) = escape_quotes_in_attr e :=
  escape_quotes_idem e

theorem renderStmt_single (a : Clause) : renderStmt [a] = renderClause a := by
  simp [renderStmt, joinSep]

theorem renderStmt_pair (a b : Clause) :
    renderStmt [a, b] = renderStmt [a] ++ " " ++ renderClause b := by
  simp [renderStmt, joinSep, String.append_assoc, String.append_empty]

/-! ### C1 -/

/-- C1: for a Term, ValueSet or Concept entity carrying a commit marker,
`create_entity_cypher_stmt` emits the same MERGE pattern as for the
entity without the marker (the marker never reaches the merge key) —
the rendered statement is that shared pattern followed only by the
`ON CREATE SET n0._commit = ...` suffix — and the rollback is the no-op
statement `empty`, which performs no deletion. -/
theorem C1_vocab_merge_key_excludes_commit (e : Ent) (m : AVal)
    (hk : e.kind = .term ∨ e.kind = .valueSet ∨ e.kind = .concept)
    (hm : getAttr e "_commit" = some m) :
    ∃ P : Pat,
      (create_entity_cypher_stmt (e.withAttrs (eraseKey e.attrs "_commit"))).1.1 =
        [Clause.mergeC P] ∧
      (create_entity_cypher_stmt e).1.1 =
        [Clause.mergeC P, Clause.onCreateSet "n0" (escapeAVal m)] ∧
      renderStmt (create_entity_cypher_stmt e).1.1 =
        renderStmt
          (create_entity_cypher_stmt (e.withAttrs (eraseKey e.attrs "_commit"))).1.1
          ++ " " ++ renderClause (Clause.onCreateSet "n0" (escapeAVal m)) ∧
      (create_entity_cypher_stmt e).1.2 = [Clause.raw "empty"] ∧
      stmtDeletes (create_entity_cypher_stmt e).1.2 = false := by
  have hkp : e.kind ≠ .property := by
    rcases hk with h | h | h <;> (rw [h]; intro hc; exact EKind.noConfusion hc)
  refine ⟨Pat.pnode ⟨"n0", e.kind.label,
    eraseKey (escapeAttrs e.attrs) "_commit"⟩, ?_, ?_, ?_, ?_, ?_⟩
  all_goals
    unfold create_entity_cypher_stmt cypherize_entity
    simp only [attrs_escape, kind_escape, attrs_withAttrs, kind_withAttrs]
  · rw [eraseKey_escapeAttrs]
    simp only [if_neg hkp]
    rw [if_pos hk]
    rw [← eraseKey_escapeAttrs, lookupKey_eraseKey_self]
  · simp only [if_neg hkp]
    rw [if_pos hk]
    unfold getAttr at hm
    rw [lookupKey_escapeAttrs, hm]
    rfl
  · simp only [if_neg hkp]
    rw [if_pos hk, if_pos hk]
    unfold getAttr at hm
    rw [lookupKey_escapeAttrs, hm, ← eraseKey_escapeAttrs, lookupKey_eraseKey_self]
    show renderStmt [Clause.mergeC (Pat.pnode ⟨"n0", e.kind.label,
        eraseKey (escapeAttrs e.attrs) "_commit"⟩),
        Clause.onCreateSet "n0" (escapeAVal m)] =
      renderStmt [Clause.mergeC (Pat.pnode ⟨"n0", e.kind.label,
        eraseKey (escapeAttrs e.attrs) "_commit"⟩)]
        ++ " " ++ renderClause (Clause.onCreateSet "n0" (escapeAVal m))
    exact renderStmt_pair _ _
  · simp only [if_neg hkp]
    rw [if_pos hk]
    unfold getAttr at hm
    rw [lookupKey_escapeAttrs, hm]
    rfl
  · simp only [if_neg hkp]
    rw [if_pos hk]
    unfold getAttr at hm
    rw [lookupKey_escapeAttrs, hm]
    rfl

/-- Witness for C1 at the spec's own example: a Term
`\x7bvalue: "Mouse", origin_id: "2578400"\x7d` with marker
`CDEPV-TEST`. -/
theorem C1_witness :
    ∃ P : Pat,
      (create_entity_cypher_stmt
        ((mkEnt .term [("value", AVal.s "Mouse"), ("origin_id", AVal.s "2578400"),
          ("_commit", AVal.s "CDEPV-TEST")]).withAttrs
          (eraseKey (mkEnt .term [("value", AVal.s "Mouse"),
            ("origin_id", AVal.s "2578400"),
            ("_commit", AVal.s "CDEPV-TEST")]).attrs "_commit"))).1.1 =
        [Clause.mergeC P] ∧
      (create_entity_cypher_stmt
        (mkEnt .term [("value", AVal.s "Mouse"), ("origin_id", AVal.s "2578400"),
          ("_commit", AVal.s "CDEPV-TEST")])).1.1 =
        [Clause.mergeC P, Clause.onCreateSet "n0" (escapeAVal (AVal.s "CDEPV-TEST"))] ∧
      renderStmt (create_entity_cypher_stmt
        (mkEnt .term [("value", AVal.s "Mouse"), ("origin_id", AVal.s "2578400"),
          ("_commit", AVal.s "CDEPV-TEST")])).1.1 =
        renderStmt (create_entity_cypher_stmt
          ((mkEnt .term [("value", AVal.s "Mouse"), ("origin_id", AVal.s "2578400"),
            ("_commit", AVal.s "CDEPV-TEST")]).withAttrs
            (eraseKey (mkEnt .term [("value", AVal.s "Mouse"),
              ("origin_id", AVal.s "2578400"),
              ("_commit", AVal.s "CDEPV-TEST")]).attrs "_commit"))).1.1
          ++ " "
          ++ renderClause (Clause.onCreateSet "n0" (escapeAVal (AVal.s "CDEPV-TEST"))) ∧
      (create_entity_cypher_stmt
        (mkEnt .term [("value", AVal.s "Mouse"), ("origin_id", AVal.s "2578400"),
          ("_commit", AVal.s "CDEPV-TEST")])).1.2 = [Clause.raw "empty"] ∧
      stmtDeletes (create_entity_cypher_stmt
        (mkEnt .term [("value", AVal.s "Mouse"), ("origin_id", AVal.s "2578400"),
          ("_commit", AVal.s "CDEPV-TEST")])).1.2 = false :=
  C1_vocab_merge_key_excludes_commit
    (mkEnt .term [("value", AVal.s "Mouse"), ("origin_id", AVal.s "2578400"),
      ("_commit", AVal.s "CDEPV-TEST")])
    (AVal.s "CDEPV-TEST") (Or.inl rfl) rfl

/-! ### C6 -/

/-- C6 counterexample: two calls of the entity-add operation with
value-equal entities (here literally the same value, a node whose handle
contains a quote) append TWO creation statements, not one: the first
call stores the quote-escaped entity on the dedup list, so the second,
unescaped value no longer compares equal and is not skipped. -/
theorem C6_counterexample :
    ((generate_cypher_to_add_entity
        (generate_cypher_to_add_entity (⟨0, [], [], []⟩ : CState)
          (mkEnt .node [("handle", AVal.s "x's")])).1
        (mkEnt .node [("handle", AVal.s "x's")])).1).addEnts.length = 2 := by
  rfl

/-- C6 (amended): a second entity-add call is silently skipped — and the
accumulated list keeps exactly the one statement of the first call —
when the second entity is value-equal to the escaped form of the first
(in particular whenever the shared attributes contain no quotes, so that
escaping leaves them unchanged); the first call appends exactly one
statement. -/
theorem C6_dedup_amended (st : CState) (e e' : Ent)
    (h1 : st.added.any (entEq e) = false)
    (h2 : entEq e' (escape_quotes_in_attr e) = true) :
    (generate_cypher_to_add_entity (generate_cypher_to_add_entity st e).1 e').1 =
      (generate_cypher_to_add_entity st e).1 ∧
    ((generate_cypher_to_add_entity st e).1).addEnts.length =
      st.addEnts.length + 1 := by
  constructor
  · unfold generate_cypher_to_add_entity
    simp only [h1, Bool.false_eq_true, if_false]
    have hany : ((add_statement st .addEntsT (create_entity_cypher_stmt e).1.1
        (create_entity_cypher_stmt e).1.2).added
          ++ [(create_entity_cypher_stmt e).2]).any (entEq e') = true := by
      rw [List.any_append]
      simp [snd_create_entity, h2]
    simp only [add_statement] at hany ⊢
    simp [hany]
  · unfold generate_cypher_to_add_entity
    simp only [h1, Bool.false_eq_true, if_false]
    simp [add_statement]

/-- Witness for C6 (amended) at a quote-free node entity. -/
theorem C6_witness :
    (generate_cypher_to_add_entity
        (generate_cypher_to_add_entity (⟨0, [], [], []⟩ : CState)
          (mkEnt .node [("handle", AVal.s "x")])).1
        (mkEnt .node [("handle", AVal.s "x")])).1 =
      (generate_cypher_to_add_entity (⟨0, [], [], []⟩ : CState)
        (mkEnt .node [("handle", AVal.s "x")])).1 ∧
    ((generate_cypher_to_add_entity (⟨0, [], [], []⟩ : CState)
        (mkEnt .node [("handle", AVal.s "x")])).1).addEnts.length =
      (⟨0, [], [], []⟩ : CState).addEnts.length + 1 :=
  C6_dedup_amended (⟨0, [], [], []⟩ : CState)
    (mkEnt .node [("handle", AVal.s "x")])
    (mkEnt .node [("handle", AVal.s "x")]) (by rfl) (by rfl)

/-! ### C8 -/

/-- The endpoint stripping of `create_relationship_cypher_stmt`: commit
markers are removed from `term`/`value_set`-labelled endpoint patterns
and the owner handle from `property`-labelled ones. -/
def stripRelPGN (n : PGN) : PGN :=
  let n' :=
    if n.label = "term" ∨ n.label = "value_set" then
      { n with props := eraseKey n.props "_commit" }
    else n
  if n'.label = "property" then
    { n' with props := eraseKey n'.props "_parent_handle" }
  else n'

/-- C8 counterexample: for a Concept destination carrying a `_commit`
attribute, the produced MATCH pattern retains `_commit` — the stripping
applies only to `term`/`value_set` labels, not to every entity kind as
the claim states. -/
theorem C8_counterexample :
    (create_relationship_cypher_stmt (mkEnt .node [("handle", AVal.s "n")])
        "has_concept" (mkEnt .concept [("_commit", AVal.s "X")])).1 =
      [Clause.matchC
        [Pat.pnode ⟨"n0", "node", [("handle", AVal.s "n")]⟩,
         Pat.pnode ⟨"n1", "concept", [("_commit", AVal.s "X")]⟩],
       Clause.mergeC (Pat.ptrip (Pat.pvar "n0") "r0" "has_concept" (Pat.pvar "n1"))] ∧
    (lookupKey [("_commit", AVal.s "X")] "_commit").isSome = true := by
  exact ⟨rfl, rfl⟩

/-- C8 (amended): both the statement and the rollback of
`create_relationship_cypher_stmt` match the two endpoints through the
same stripped patterns, in which endpoints labelled `term` or
`value_set` carry no `_commit` attribute and endpoints labelled
`property` carry no `_parent_handle` attribute; other labels (such as
`concept`) are not stripped. -/
theorem C8_relationship_strip_amended (src : Ent) (rel : String) (dst : Ent) :
    (create_relationship_cypher_stmt src rel dst).1 =
      [Clause.matchC
        [Pat.pnode (stripRelPGN (cypherize_entity src "n0")),
         Pat.pnode (stripRelPGN (cypherize_entity dst "n1"))],
       Clause.mergeC (Pat.ptrip (Pat.pvar "n0") "r0" rel (Pat.pvar "n1"))] ∧
    (create_relationship_cypher_stmt src rel dst).2 =
      [Clause.matchC
        [Pat.ptrip (Pat.pnode (stripRelPGN (cypherize_entity src "n0"))) "r0" rel
          (Pat.pnode (stripRelPGN (cypherize_entity dst "n1")))],
       Clause.deleteC "r0"] ∧
    ((src.kind = .term ∨ src.kind = .valueSet) →
      lookupKey (stripRelPGN (cypherize_entity src "n0")).props "_commit" = none) ∧
    (src.kind = .property →
      lookupKey (stripRelPGN (cypherize_entity src "n0")).props "_parent_handle"
        = none) ∧
    ((dst.kind = .term ∨ dst.kind = .valueSet) →
      lookupKey (stripRelPGN (cypherize_entity dst "n1")).props "_commit" = none) ∧
    (dst.kind = .property →
      lookupKey (stripRelPGN (cypherize_entity dst "n1")).props "_parent_handle"
        = none) := by
  refine ⟨rfl, rfl, ?_, ?_, ?_, ?_⟩
  · intro h
    unfold cypherize_entity
    rcases h with h | h <;>
      (rw [h]
       simp only [EKind.label]
       simp [stripRelPGN, lookupKey_eraseKey_self])
  · intro h
    unfold cypherize_entity
    rw [h]
    simp only [EKind.label]
    simp [stripRelPGN, lookupKey_eraseKey_self]
  · intro h
    unfold cypherize_entity
    rcases h with h | h <;>
      (rw [h]
       simp only [EKind.label]
       simp [stripRelPGN, lookupKey_eraseKey_self])
  · intro h
    unfold cypherize_entity
    rw [h]
    simp only [EKind.label]
    simp [stripRelPGN, lookupKey_eraseKey_self]

/-- Witness for C8 (amended): a Term source with a commit marker and a
Property destination with an owner handle. -/
theorem C8_witness :
    ((mkEnt .term [("value", AVal.s "t"), ("_commit", AVal.s "C")]).kind = .term ∨
      (mkEnt .term [("value", AVal.s "t"), ("_commit", AVal.s "C")]).kind = .valueSet)
      ∧
    lookupKey (stripRelPGN (cypherize_entity
      (mkEnt .term [("value", AVal.s "t"), ("_commit", AVal.s "C")]) "n0")).props
      "_commit" = none ∧
    lookupKey (stripRelPGN (cypherize_entity
      (mkEnt .property [("handle", AVal.s "p"), ("_parent_handle", AVal.s "o")])
      "n1")).props "_parent_handle" = none :=
  ⟨Or.inl rfl,
   (C8_relationship_strip_amended
      (mkEnt .term [("value", AVal.s "t"), ("_commit", AVal.s "C")]) "has_x"
      (mkEnt .property [("handle", AVal.s "p"), ("_parent_handle", AVal.s "o")])
    ).2.2.1 (Or.inl rfl),
   (C8_relationship_strip_amended
      (mkEnt .term [("value", AVal.s "t"), ("_commit", AVal.s "C")]) "has_x"
      (mkEnt .property [("handle", AVal.s "p"), ("_parent_handle", AVal.s "o")])
    ).2.2.2.2.2 rfl⟩

/-! ### C9 -/

/-- Whether a match-clause computation succeeded. -/
def exOk (r : Except String Clause) : Bool :=
  match r with
  | .ok _ => true
  | .error _ => false

/-- C9 counterexample: a Tag whose parent is set (to a Property that
lacks its own owner handle) still raises when its MATCH clause is
requested, because the parent's own match generation fails — against
the claim that no Tag with a parent raises. -/
theorem C9_counterexample :
    ((mkEnt .tag [("key", AVal.s "k"), ("value", AVal.s "v")]).withParent
      (some (mkEnt .property [("handle", AVal.s "p")]))).parent.isSome = true ∧
    exOk (match_tag
      ((mkEnt .tag [("key", AVal.s "k"), ("value", AVal.s "v")]).withParent
        (some (mkEnt .property [("handle", AVal.s "p")])))
      ⟨"n0", "tag", [("key", AVal.s "k"), ("value", AVal.s "v")]⟩) = false := by
  constructor
  · rfl
  · rw [match_tag]
    simp [mkEnt, Ent.withParent, Ent.parent, generate_match_clause, Ent.kind,
      match_prop, getAttr, Ent.attrs, lookupKey, truthyA, exOk]

/-- C9 (amended): requesting a MATCH clause for a Property with no (or
an empty) owner handle, or for a Tag with no parent, raises; a Property
with a non-empty owner handle succeeds; a Tag with a parent succeeds
exactly when its parent's own MATCH generation succeeds — in
particular it does succeed whenever the parent is not an Edge, Property
or Tag. -/
theorem C9_match_failure_amended :
    (∀ (prop : Ent) (entC : PGN), truthyA (getAttr prop "_parent_handle") = false →
      exOk (match_prop prop entC) = false) ∧
    (∀ (prop : Ent) (entC : PGN), truthyA (getAttr prop "_parent_handle") = true →
      exOk (match_prop prop entC) = true) ∧
    (∀ (tag : Ent) (entC : PGN), tag.parent = none →
      exOk (match_tag tag entC) = false) ∧
    (∀ (tag : Ent) (entC : PGN) (p : Ent), tag.parent = some p →
      exOk (match_tag tag entC) =
        exOk (generate_match_clause p
          ⟨"n1", p.kind.label, eraseKey p.attrs "_parent_handle"⟩)) ∧
    (∀ (tag : Ent) (entC : PGN) (p : Ent), tag.parent = some p →
      p.kind ≠ .edge → p.kind ≠ .property → p.kind ≠ .tag →
      exOk (match_tag tag entC) = true) := by
  have hprop1 : ∀ (prop : Ent) (entC : PGN),
      truthyA (getAttr prop "_parent_handle") = false →
      exOk (match_prop prop entC) = false := by
    intro prop entC h
    unfold match_prop
    rw [h]
    rfl
  have hprop2 : ∀ (prop : Ent) (entC : PGN),
      truthyA (getAttr prop "_parent_handle") = true →
      exOk (match_prop prop entC) = true := by
    intro prop entC h
    unfold match_prop
    rw [h]
    rfl
  have htag1 : ∀ (tag : Ent) (entC : PGN), tag.parent = none →
      exOk (match_tag tag entC) = false := by
    intro tag entC h
    rw [match_tag, h]
    rfl
  have htag2 : ∀ (tag : Ent) (entC : PGN) (p : Ent), tag.parent = some p →
      exOk (match_tag tag entC) =
        exOk (generate_match_clause p
          ⟨"n1", p.kind.label, eraseKey p.attrs "_parent_handle"⟩) := by
    intro tag entC p h
    rw [match_tag, h]
    dsimp only
    cases hg : generate_match_clause p
        ⟨"n1", p.kind.label, eraseKey p.attrs "_parent_handle"⟩ <;>
      rfl
  refine ⟨hprop1, hprop2, htag1, htag2, ?_⟩
  intro tag entC p h he hp ht
  rw [htag2 tag entC p h]
  rw [generate_match_clause]
  rw [if_neg hp, if_neg ht, if_neg he]
  rfl

/-- Witness for C9 (amended): a Property with owner handle succeeds, one
without fails, a parentless Tag fails, and a Tag whose parent is a plain
node succeeds. -/
theorem C9_witness :
    exOk (match_prop (mkEnt .property [("handle", AVal.s "p")])
      ⟨"n0", "property", [("handle", AVal.s "p")]⟩) = false ∧
    exOk (match_prop
      (mkEnt .property [("handle", AVal.s "p"), ("_parent_handle", AVal.s "o")])
      ⟨"n0", "property", [("handle", AVal.s "p")]⟩) = true ∧
    exOk (match_tag (mkEnt .tag [("key", AVal.s "k")])
      ⟨"n0", "tag", [("key", AVal.s "k")]⟩) = false ∧
    exOk (match_tag ((mkEnt .tag [("key", AVal.s "k")]).withParent
      (some (mkEnt .node [("handle", AVal.s "h")])))
      ⟨"n0", "tag", [("key", AVal.s "k")]⟩) = true :=
  ⟨C9_match_failure_amended.1 _ _ (by rfl),
   C9_match_failure_amended.2.1 _ _ (by rfl),
   C9_match_failure_amended.2.2.1 _ _ (by rfl),
   C9_match_failure_amended.2.2.2.2 _ _ _ (by rfl) (by decide) (by decide)
     (by decide)⟩

/-! ### C10 -/

theorem pvLookup_filter_self (pv : PV) (k : String) :
    pvLookup (pv.filter (fun p => decide (p.1 ≠ k))) k = none := by
  induction pv with
  | nil => rfl
  | cons p rest ih =>
    by_cases h : p.1 = k
    · simpa [h] using ih
    · simpa [pvLookup, h] using ih

/-- Every record in the mutated value-set list left by the
permissible-value loop has had its `synonyms` key popped (or was a
skipped `None`/empty record, which has no keys at all). -/
theorem cdePVLoop_pops (cdeVs : Ent) (commit : Option String) :
    ∀ (l : List (Option PV)) (stmts : List Stmt) (l' : List (Option PV)),
      cdePVLoop cdeVs commit l = .ok (stmts, l') →
      ∀ pv ∈ l', ∀ d : PV, pv = some d → pvLookup d "synonyms" = none := by
  intro l
  induction l with
  | nil =>
    intro stmts l' h pv hm d hd
    unfold cdePVLoop at h
    cases h
    simp at hm
  | cons pvOpt rest ih =>
    intro stmts l' h pv hm d hd
    unfold cdePVLoop at h
    match pvOpt with
    | none =>
      simp only at h
      cases hr : cdePVLoop cdeVs commit rest with
      | error msg => rw [hr] at h; cases h
      | ok pr =>
        rw [hr] at h
        cases h
        rcases List.mem_cons.mp hm with h1 | h1
        · rw [h1] at hd; cases hd
        · exact ih pr.1 pr.2 (by rw [hr]) pv h1 d hd
    | some pv0 =>
      simp only at h
      by_cases hempty : pv0 = ([] : PV)
      · rw [if_pos hempty] at h
        cases hr : cdePVLoop cdeVs commit rest with
        | error msg => rw [hr] at h; cases h
        | ok pr =>
          rw [hr] at h
          cases h
          rcases List.mem_cons.mp hm with h1 | h1
          · rw [h1] at hd
            cases hd
            rw [hempty]
            rfl
          · exact ih pr.1 pr.2 (by rw [hr]) pv h1 d hd
      · rw [if_neg hempty] at h
        cases hpop : pvPop pv0 "synonyms" with
        | error msg => rw [hpop] at h; cases h
        | ok popped =>
          rw [hpop] at h
          simp only at h
          cases hr : cdePVLoop cdeVs commit rest with
          | error msg => rw [hr] at h; cases h
          | ok pr =>
            rw [hr] at h
            cases h
            rcases List.mem_cons.mp hm with h1 | h1
            · rw [h1] at hd
              cases hd
              unfold pvPop at hpop
              cases hl : pvLookup pv0 "synonyms" with
              | none => rw [hl] at hpop; cases hpop
              | some v =>
                rw [hl] at hpop
                cases hpop
                exact pvLookup_filter_self pv0 "synonyms"
            · exact ih pr.1 pr.2 (by rw [hr]) pv h1 d hd

/-- C10: `convert_annotation_to_changesets` mutates its input
annotation: every processed permissible-value record has its `synonyms`
key popped in place before the PV term is built, so after a successful
call no record in the returned annotation's value-set list still
contains a `synonyms` entry. -/
theorem C10_synonyms_popped (ann : AnnotationSpec) (csId : Nat)
    (author commit : Option String) (css : List Changeset)
    (ann' : AnnotationSpec)
    (h : convert_annotation_to_changesets ann csId author commit = .ok (css, ann')) :
    ∀ pv ∈ ann'.value_set, ∀ d : PV, pv = some d →
      pvLookup d "synonyms" = none := by
  intro pv hm d hd
  unfold convert_annotation_to_changesets at h
  by_cases hvs : ann.value_set = []
  · rw [if_pos hvs] at h
    cases h
    rw [hvs] at hm
    simp at hm
  · rw [if_neg hvs] at h
    dsimp only at h
    split at h
    · cases h
    · cases h
      rename_i stmts vset' heq
      exact cdePVLoop_pops _ commit ann.value_set stmts vset' heq pv hm d hd

/-- Witness for C10 at a one-record annotation: after the call the
processed record no longer contains its `synonyms` key. -/
theorem C10_witness :
    pvLookup [("value", PVV.s (some "A"))] "synonyms" = none :=
  C10_synonyms_popped
    ⟨[("origin_id", some "7")],
     [some [("value", PVV.s (some "A")), ("synonyms", PVV.syns [])]]⟩
    1 none none _ _ rfl
    (some [("value", PVV.s (some "A"))]) (List.mem_cons_self _ _)
    [("value", PVV.s (some "A"))] rfl

/-! ### C2 -/

/-- Whether a clause is a CREATE clause. -/
def isCreateClause : Clause → Bool
  | .createC _ => true
  | _ => false

/-- C2: the synonym-linking statement for two distinct terms resolves
`existing_concept` by a CASE testing term_a's optionally-matched concept
variable `(n2)` before term_b's `(n3)` (the OPTIONAL MATCH binding `n2`
starts from term_a's variable `n0` and the one binding `n3` from
term_b's `n1`); when a winner exists, it merges `represents` edges from
both terms onto `existing_concept`; and its else-branch (the second
FOREACH block) contains exactly four CREATE clauses: one new concept
node stamped with the commit marker, one mapping-source tag attachment,
and two `represents` edges, one per term. -/
theorem C2_synonym_resolver_structure (e1 e2 : Ent) (ms c : String)
    (h1 : e1.kind = .term) (h2 : e2.kind = .term)
    (hne : entEq e1 e2 = false) :
    (generate_cypher_to_link_term_synonyms e1 e2 ms (some c)).get? 0 =
      some (Clause.matchC
        [Pat.pnode ⟨"n0", e1.kind.label, eraseKey e1.attrs "_commit"⟩,
         Pat.pnode ⟨"n1", e2.kind.label, eraseKey e2.attrs "_commit"⟩]) ∧
    (generate_cypher_to_link_term_synonyms e1 e2 ms (some c)).get? 3 =
      some (Clause.optMatch (Pat.ptrip
        (Pat.ptrip (Pat.pvar "n0") "r0" "represents" (Pat.pnode ⟨"n2", "concept", []⟩))
        "r2" "has_tag" (Pat.pnode (mappingTagPGN "n4" ms)))) ∧
    (generate_cypher_to_link_term_synonyms e1 e2 ms (some c)).get? 6 =
      some (Clause.optMatch (Pat.ptrip
        (Pat.ptrip (Pat.pvar "n1") "r1" "represents" (Pat.pnode ⟨"n3", "concept", []⟩))
        "r3" "has_tag" (Pat.pnode (mappingTagPGN "n5" ms)))) ∧
    (generate_cypher_to_link_term_synonyms e1 e2 ms (some c)).get? 11 =
      some (Clause.raw "CASE WHEN (n2) IS NOT NULL THEN (n2)") ∧
    (generate_cypher_to_link_term_synonyms e1 e2 ms (some c)).get? 12 =
      some (Clause.raw "WHEN (n3) IS NOT NULL THEN (n3)") ∧
    (generate_cypher_to_link_term_synonyms e1 e2 ms (some c)).get? 16 =
      some (Clause.mergeC (Pat.praw "(n0)-[:represents]->(existing_concept)")) ∧
    (generate_cypher_to_link_term_synonyms e1 e2 ms (some c)).get? 17 =
      some (Clause.mergeC (Pat.praw "(n1)-[:represents]->(existing_concept)")) ∧
    (generate_cypher_to_link_term_synonyms e1 e2 ms (some c)).get? 19 =
      some Clause.forEachC ∧
    (generate_cypher_to_link_term_synonyms e1 e2 ms (some c)).get? 20 =
      some (Clause.raw "(_ IN CASE WHEN existing_concept IS NULL THEN [1] ELSE [] END |") ∧
    (generate_cypher_to_link_term_synonyms e1 e2 ms (some c)).filter isCreateClause =
      [Clause.createC (Pat.pnode ⟨"n6", "concept", [("_commit", AVal.s c)]⟩),
       Clause.createC (Pat.ptrip (Pat.pvar "n6") "r4" "has_tag"
         (Pat.pnode (mappingTagPGN "n7" ms))),
       Clause.createC (Pat.ptrip (Pat.pvar "n0") "r5" "represents" (Pat.pvar "n6")),
       Clause.createC (Pat.ptrip (Pat.pvar "n1") "r6" "represents" (Pat.pvar "n6"))] ∧
    (generate_cypher_to_link_term_synonyms e1 e2 ms (some c)).get? 21 =
      some (Clause.createC (Pat.pnode ⟨"n6", "concept", [("_commit", AVal.s c)]⟩)) ∧
    (generate_cypher_to_link_term_synonyms e1 e2 ms (some c)).get? 25 =
      some (Clause.raw ")") ∧
    (generate_cypher_to_link_term_synonyms e1 e2 ms (some c)).length = 26 :=
  ⟨rfl, rfl, rfl, rfl, rfl, rfl, rfl, rfl, rfl, rfl, rfl, rfl, rfl⟩

/-- Witness for C2 at the repository's own unit-test terms. -/
theorem C2_witness :
    (generate_cypher_to_link_term_synonyms
      (mkEnt .term [("value", AVal.s "test_term1"), ("_commit", AVal.s "CDEPV-TEST")])
      (mkEnt .term [("value", AVal.s "test_term2")]) "NCIt"
      (some "CDEPV-TEST")).get? 11 =
      some (Clause.raw "CASE WHEN (n2) IS NOT NULL THEN (n2)") ∧
    (generate_cypher_to_link_term_synonyms
      (mkEnt .term [("value", AVal.s "test_term1"), ("_commit", AVal.s "CDEPV-TEST")])
      (mkEnt .term [("value", AVal.s "test_term2")]) "NCIt"
      (some "CDEPV-TEST")).filter isCreateClause =
      [Clause.createC (Pat.pnode ⟨"n6", "concept", [("_commit", AVal.s "CDEPV-TEST")]⟩),
       Clause.createC (Pat.ptrip (Pat.pvar "n6") "r4" "has_tag"
         (Pat.pnode (mappingTagPGN "n7" "NCIt"))),
       Clause.createC (Pat.ptrip (Pat.pvar "n0") "r5" "represents" (Pat.pvar "n6")),
       Clause.createC (Pat.ptrip (Pat.pvar "n1") "r6" "represents" (Pat.pvar "n6"))] :=
  ⟨(C2_synonym_resolver_structure
      (mkEnt .term [("value", AVal.s "test_term1"), ("_commit", AVal.s "CDEPV-TEST")])
      (mkEnt .term [("value", AVal.s "test_term2")]) "NCIt" "CDEPV-TEST"
      rfl rfl (by rfl)).2.2.2.1,
   (C2_synonym_resolver_structure
      (mkEnt .term [("value", AVal.s "test_term1"), ("_commit", AVal.s "CDEPV-TEST")])
      (mkEnt .term [("value", AVal.s "test_term2")]) "NCIt" "CDEPV-TEST"
      rfl rfl (by rfl)).2.2.2.2.2.2.2.2.2.1⟩

/-! ### C3 -/

theorem changesets_of_length (a : Option String) (ar : Bool) :
    ∀ (l : List (Stmt × Stmt)) (s : Nat),
      (changesets_of a ar s l).length = l.length := by
  intro l
  induction l with
  | nil => intro s; rfl
  | cons pr rest ih =>
    intro s
    simp [changesets_of, ih]

theorem changesets_of_get? (a : Option String) (ar : Bool) :
    ∀ (l : List (Stmt × Stmt)) (s i : Nat),
      (changesets_of a ar s l).get? i =
        (l.get? i).map fun pr =>
          ⟨toString (s + i), a, collapseStr (renderStmt pr.1),
           if ar then some (renderStmt pr.2) else none⟩ := by
  intro l
  induction l with
  | nil => intro s i; simp [changesets_of]
  | cons pr rest ih =>
    intro s i
    cases i with
    | zero => simp [changesets_of]
    | succ i' =>
      simp only [changesets_of, List.get?_cons_succ]
      rw [ih (s + 1) i']
      have : s + 1 + i' = s + (i' + 1) := by omega
      rw [this]

theorem changesets_of_bodies (a : Option String) (ar : Bool) :
    ∀ (l : List (Stmt × Stmt)) (s : Nat),
      (changesets_of a ar s l).map (fun cs => cs.body) =
        l.map fun pr => collapseStr (renderStmt pr.1) := by
  intro l
  induction l with
  | nil => intro s; rfl
  | cons pr rest ih =>
    intro s
    simp [changesets_of, ih]

/-- C3: every changelog returned by `convert_model_to_changelog` lists
the accumulated entity-creation statements, in order, before all the
accumulated relationship-creation statements, and its changesets carry
the stringified sequential ids `1..N` in generation order. -/
theorem C3_changelog_order_and_ids (m : Mdl) (author : String)
    (mv : Option String) (lv ar tOnly : Bool) (cl : List Changeset)
    (h : convert_model_to_changelog m author mv lv ar tOnly = .ok cl) :
    ∃ st : CState, convertAux m mv lv tOnly = .ok st ∧
      cl.map (fun cs => cs.body) =
        (st.addEnts.map fun pr => collapseStr (renderStmt pr.1))
          ++ (st.addRels.map fun pr => collapseStr (renderStmt pr.1)) ∧
      ∀ i, i < cl.length →
        (cl.get? i).map (fun cs => cs.id) = some (toString (i + 1)) := by
  unfold convert_model_to_changelog at h
  cases haux : convertAux m mv lv tOnly with
  | error msg => rw [haux] at h; cases h
  | ok st =>
    rw [haux] at h
    cases h
    refine ⟨st, rfl, ?_, ?_⟩
    · rw [changesets_of_bodies, List.map_append]
    · intro i hi
      rw [changesets_of_get?]
      rw [changesets_of_length] at hi
      have hsome := List.get?_eq_get (by exact hi)
      rw [hsome]
      show some (toString (1 + i)) = some (toString (i + 1))
      rw [Nat.add_comm]

/-- Witness for C3 at a minimal model (no nodes, edges or props): the
changelog holds the single model-node changeset with id `1`. -/
theorem C3_witness :
    ∃ st : CState,
      convertAux ⟨"T", none, none, [], [], [], []⟩ none false true = .ok st ∧
      ([(⟨"1", some "A",
          "CREATE (n0:model \x7blatest_version:false,handle:'T',name:'T'\x7d)",
          some "MATCH (n0:model \x7blatest_version:false,handle:'T',name:'T'\x7d) DETACH DELETE (n0)"⟩ :
            Changeset)].map (fun cs => cs.body)) =
        (st.addEnts.map fun pr => collapseStr (renderStmt pr.1))
          ++ (st.addRels.map fun pr => collapseStr (renderStmt pr.1)) ∧
      ∀ i, i < ([(⟨"1", some "A",
          "CREATE (n0:model \x7blatest_version:false,handle:'T',name:'T'\x7d)",
          some "MATCH (n0:model \x7blatest_version:false,handle:'T',name:'T'\x7d) DETACH DELETE (n0)"⟩ :
            Changeset)] : List Changeset).length →
        (([(⟨"1", some "A",
          "CREATE (n0:model \x7blatest_version:false,handle:'T',name:'T'\x7d)",
          some "MATCH (n0:model \x7blatest_version:false,handle:'T',name:'T'\x7d) DETACH DELETE (n0)"⟩ :
            Changeset)] : List Changeset).get? i).map (fun cs => cs.id) =
          some (toString (i + 1)) :=
  C3_changelog_order_and_ids ⟨"T", none, none, [], [], [], []⟩ "A" none false true
    true
    [⟨"1", some "A",
      "CREATE (n0:model \x7blatest_version:false,handle:'T',name:'T'\x7d)",
      some "MATCH (n0:model \x7blatest_version:false,handle:'T',name:'T'\x7d) DETACH DELETE (n0)"⟩]
    rfl

/-! ### C5 -/

/-- A value whose string content is backslash-free (it may freely
contain quotes). -/
def valNoBS : AVal → Prop
  | .s v => bsC ∉ v.data
  | .b _ => True

/-- A clean attribute entry: key free of backslashes and double quotes,
value backslash-free. -/
def cleanPair (p : String × AVal) : Prop :=
  bsC ∉ p.1.data ∧ dqC ∉ p.1.data ∧ valNoBS p.2

/-- `BuiltTail s`: prefixing `s` preserves `Built`-ness of any tail. -/
def BuiltTail (s : String) : Prop :=
  ∀ t : List Char, Built t → Built (s.data ++ t)

theorem builtTail_clean (s : String) (h1 : bsC ∉ s.data) (h2 : dqC ∉ s.data) :
    BuiltTail s :=
  fun t ht => Built.clean s.data t h1 h2 ht

theorem unescape_of_noBS (l : List Char) (h : bsC ∉ l) : unescapeChars l = l := by
  unfold unescapeChars
  rw [replace2_of_not_mem bsC sqC [sqC] l h, replace2_of_not_mem bsC dqC [dqC] l h]

theorem escapeStr_data_of_noBS (v : String) (h : bsC ∉ v.data) :
    (escapeStr v).data = escsp v.data := by
  show (escapeChars v.data) = escsp v.data
  unfold escapeChars
  rw [unescape_of_noBS v.data h, escQChars_eq_escsp]

theorem builtTail_esc (v : String) (hv : bsC ∉ v.data) :
    BuiltTail (escapeStr v) := by
  intro t ht
  rw [escapeStr_data_of_noBS v hv]
  exact Built.escv v.data t hv ht

theorem builtTail_append {a b : String} (ha : BuiltTail a) (hb : BuiltTail b) :
    BuiltTail (a ++ b) := by
  intro t ht
  rw [String.data_append, List.append_assoc]
  exact ha _ (hb t ht)

theorem built_of_tail {s : String} (h : BuiltTail s) : Built s.data := by
  have := h [] Built.nil
  rwa [List.append_nil] at this

theorem builtTail_val (v : AVal) (hv : valNoBS v) :
    BuiltTail (renderAVal (escapeAVal v)) := by
  cases v with
  | s m =>
    show BuiltTail ("'" ++ escapeStr m ++ "'")
    exact builtTail_append
      (builtTail_append (builtTail_clean "'" (by decide) (by decide))
        (builtTail_esc m hv))
      (builtTail_clean "'" (by decide) (by decide))
  | b b =>
    cases b with
    | false => exact builtTail_clean "false" (by decide) (by decide)
    | true => exact builtTail_clean "true" (by decide) (by decide)

theorem builtTail_propsJoin :
    ∀ l : List (String × AVal), (∀ p ∈ l, cleanPair p) →
      BuiltTail (joinSep ","
        (l.map fun p => p.1 ++ ":" ++ renderAVal (escapeAVal p.2))) := by
  intro l
  induction l with
  | nil =>
    intro _
    exact builtTail_clean "" (by decide) (by decide)
  | cons p rest ih =>
    intro hc
    have hp : cleanPair p := hc p (List.mem_cons_self p rest)
    have hpiece : BuiltTail (p.1 ++ ":" ++ renderAVal (escapeAVal p.2)) :=
      builtTail_append
        (builtTail_append (builtTail_clean p.1 hp.1 hp.2.1)
          (builtTail_clean ":" (by decide) (by decide)))
        (builtTail_val p.2 hp.2.2)
    have hrest := ih (fun q hq => hc q (List.mem_cons_of_mem p hq))
    cases rest with
    | nil =>
      show BuiltTail ((p.1 ++ ":" ++ renderAVal (escapeAVal p.2)) ++ "")
      exact builtTail_append hpiece (builtTail_clean "" (by decide) (by decide))
    | cons q qs =>
      show BuiltTail ((p.1 ++ ":" ++ renderAVal (escapeAVal p.2)) ++
        ("," ++ joinSep ","
          ((q :: qs).map fun r => r.1 ++ ":" ++ renderAVal (escapeAVal r.2))))
      exact builtTail_append hpiece
        (builtTail_append (builtTail_clean "," (by decide) (by decide)) hrest)

theorem escapeAttrs_cons (p : String × AVal) (rest : List (String × AVal)) :
    escapeAttrs (p :: rest) = (p.1, escapeAVal p.2) :: escapeAttrs rest := by
  rw [escapeAttrs_eq_map, escapeAttrs_eq_map]
  rfl

theorem builtTail_renderProps (l : List (String × AVal))
    (hc : ∀ p ∈ l, cleanPair p) :
    BuiltTail (renderProps (escapeAttrs l)) := by
  cases l with
  | nil => exact builtTail_clean "" (by decide) (by decide)
  | cons p rest =>
    rw [escapeAttrs_cons]
    have hjoin : BuiltTail (joinSep ","
        (((p :: rest).map fun q => (q.1, escapeAVal q.2)).map
          fun q => q.1 ++ ":" ++ renderAVal q.2)) := by
      rw [List.map_map]
      exact builtTail_propsJoin (p :: rest) hc
    show BuiltTail (" \x7b" ++ joinSep ","
      (((p.1, escapeAVal p.2) :: escapeAttrs rest).map
        fun q => q.1 ++ ":" ++ renderAVal q.2) ++ "\x7d")
    have hlist : ((p.1, escapeAVal p.2) :: escapeAttrs rest) =
        ((p :: rest).map fun q => (q.1, escapeAVal q.2)) := by
      rw [← escapeAttrs_cons, escapeAttrs_eq_map]
    rw [hlist]
    exact builtTail_append
      (builtTail_append (builtTail_clean " \x7b" (by decide) (by decide)) hjoin)
      (builtTail_clean "\x7d" (by decide) (by decide))

theorem builtTail_renderPGN (v label : String) (l : List (String × AVal))
    (hv : bsC ∉ v.data ∧ dqC ∉ v.data)
    (hl : bsC ∉ label.data ∧ dqC ∉ label.data)
    (hc : ∀ p ∈ l, cleanPair p) :
    BuiltTail (renderPGN ⟨v, label, escapeAttrs l⟩) := by
  unfold renderPGN
  refine builtTail_append (builtTail_append (builtTail_append
    (builtTail_append (builtTail_clean "(" (by decide) (by decide))
      (builtTail_clean v hv.1 hv.2)) ?_)
    (builtTail_renderProps l hc)) (builtTail_clean ")" (by decide) (by decide))
  by_cases h0 : label = ""
  · rw [if_pos h0]
    exact builtTail_clean "" (by decide) (by decide)
  · rw [if_neg h0]
    exact builtTail_append (builtTail_clean ":" (by decide) (by decide))
      (builtTail_clean label hl.1 hl.2)

/-- Entity labels contain no backslashes or double quotes. -/
theorem label_clean (k : EKind) :
    bsC ∉ k.label.data ∧ dqC ∉ k.label.data := by
  cases k <;> exact ⟨by decide, by decide⟩

theorem lookupKey_mem (l : List (String × AVal)) (k : String) (v : AVal)
    (h : lookupKey l k = some v) : (k, v) ∈ l := by
  induction l with
  | nil => cases h
  | cons p rest ih =>
    unfold lookupKey at h
    by_cases hk : p.1 = k
    · rw [if_pos hk] at h
      cases h
      subst hk
      simp
    · rw [if_neg hk] at h
      exact List.mem_cons_of_mem p (ih h)

theorem mem_eraseKey (l : List (String × AVal)) (k : String)
    (p : String × AVal) (h : p ∈ eraseKey l k) : p ∈ l :=
  List.mem_of_mem_filter h

instance (v : AVal) : Decidable (valNoBS v) := by
  cases v with
  | s m => exact inferInstanceAs (Decidable (bsC ∉ m.data))
  | b b => exact inferInstanceAs (Decidable True)

instance (p : String × AVal) : Decidable (cleanPair p) :=
  inferInstanceAs (Decidable (_ ∧ _ ∧ _))

theorem builtTail_nodeClause (pre lab : String) (l : List (String × AVal))
    (hpre : bsC ∉ pre.data ∧ dqC ∉ pre.data)
    (hlab : bsC ∉ lab.data ∧ dqC ∉ lab.data)
    (hc : ∀ p ∈ l, cleanPair p) :
    BuiltTail (pre ++ renderPGN ⟨"n0", lab, escapeAttrs l⟩) :=
  builtTail_append (builtTail_clean pre hpre.1 hpre.2)
    (builtTail_renderPGN "n0" lab l ⟨by decide, by decide⟩ hlab hc)

theorem builtTail_onCreate (m : AVal) (hm : valNoBS m) :
    BuiltTail (renderClause (Clause.onCreateSet "n0" (escapeAVal m))) := by
  show BuiltTail ("ON CREATE SET " ++ "n0" ++ "._commit = " ++ renderAVal (escapeAVal m))
  exact builtTail_append (builtTail_append (builtTail_append
    (builtTail_clean "ON CREATE SET " (by decide) (by decide))
    (builtTail_clean "n0" (by decide) (by decide)))
    (builtTail_clean "._commit = " (by decide) (by decide)))
    (builtTail_val m hm)

/-- The final serialized body of an entity-creation statement is
escape-`good` whenever the entity's attribute keys are free of
backslashes and double quotes and its string values are backslash-free
(they may contain both kinds of quote). -/
theorem good_create_body (e : Ent)
    (hc : ∀ p ∈ e.attrs, cleanPair p) :
    good (collapseChars (renderStmt (create_entity_cypher_stmt e).1.1).data) = true := by
  have hsub : ∀ (k : String), ∀ p ∈ eraseKey e.attrs k, cleanPair p :=
    fun k p hp => hc p (mem_eraseKey e.attrs k p hp)
  have hsub2 : ∀ (k k' : String),
      ∀ p ∈ eraseKey (eraseKey e.attrs k) k', cleanPair p :=
    fun k k' p hp => hsub k p (mem_eraseKey _ k' p hp)
  apply built_collapse_good
  unfold create_entity_cypher_stmt cypherize_entity
  dsimp only
  rw [kind_escape, attrs_escape]
  by_cases hp : e.kind = EKind.property
  · rw [if_pos hp]
    by_cases hv : e.kind = EKind.term ∨ e.kind = EKind.valueSet ∨ e.kind = EKind.concept
    · rw [if_pos hv]
      cases hlk : lookupKey (eraseKey (escapeAttrs e.attrs) "_parent_handle") "_commit" with
      | none =>
        dsimp only
        rw [renderStmt_single, eraseKey_escapeAttrs]
        exact built_of_tail (builtTail_nodeClause "MERGE " e.kind.label _
          ⟨by decide, by decide⟩ (label_clean e.kind) (hsub _))
      | some commit =>
        rw [eraseKey_escapeAttrs, lookupKey_escapeAttrs] at hlk
        obtain ⟨m, hm, hcm⟩ := Option.map_eq_some'.mp hlk
        subst hcm
        have hclean : cleanPair ("_commit", m) :=
          hsub _ _ (lookupKey_mem _ _ _ hm)
        dsimp only
        rw [renderStmt_pair, renderStmt_single]
        refine built_of_tail (builtTail_append (builtTail_append ?_
          (builtTail_clean " " (by decide) (by decide)))
          (builtTail_onCreate m hclean.2.2))
        rw [eraseKey_escapeAttrs, eraseKey_escapeAttrs]
        exact builtTail_nodeClause "MERGE " e.kind.label _
          ⟨by decide, by decide⟩ (label_clean e.kind) (hsub2 _ _)
    · rw [if_neg hv]
      dsimp only
      rw [renderStmt_single, eraseKey_escapeAttrs]
      exact built_of_tail (builtTail_nodeClause "CREATE " e.kind.label _
        ⟨by decide, by decide⟩ (label_clean e.kind) (hsub _))
  · rw [if_neg hp]
    by_cases hv : e.kind = EKind.term ∨ e.kind = EKind.valueSet ∨ e.kind = EKind.concept
    · rw [if_pos hv]
      cases hlk : lookupKey (escapeAttrs e.attrs) "_commit" with
      | none =>
        dsimp only
        rw [renderStmt_single]
        exact built_of_tail (builtTail_nodeClause "MERGE " e.kind.label _
          ⟨by decide, by decide⟩ (label_clean e.kind) hc)
      | some commit =>
        rw [lookupKey_escapeAttrs] at hlk
        obtain ⟨m, hm, hcm⟩ := Option.map_eq_some'.mp hlk
        subst hcm
        have hclean : cleanPair ("_commit", m) :=
          hc _ (lookupKey_mem _ _ _ hm)
        dsimp only
        rw [renderStmt_pair, renderStmt_single]
        refine built_of_tail (builtTail_append (builtTail_append ?_
          (builtTail_clean " " (by decide) (by decide)))
          (builtTail_onCreate m hclean.2.2))
        rw [eraseKey_escapeAttrs]
        exact builtTail_nodeClause "MERGE " e.kind.label _
          ⟨by decide, by decide⟩ (label_clean e.kind) (hsub _)
    · rw [if_neg hv]
      dsimp only
      rw [renderStmt_single]
      exact built_of_tail (builtTail_nodeClause "CREATE " e.kind.label _
        ⟨by decide, by decide⟩ (label_clean e.kind) hc)

/-- Re-running the statement builder on an already-escaped entity
reproduces the statement byte for byte. -/
theorem create_escape_stable (e : Ent) :
    create_entity_cypher_stmt (escape_quotes_in_attr e) = create_entity_cypher_stmt e := by
  unfold create_entity_cypher_stmt
  rw [escape_quotes_idem]

/-- A pair of adjacent characters `a, b` occurring somewhere in a list. -/
def containsPair (a b : Char) : List Char → Bool
  | [] => false
  | c :: t =>
    match t with
    | [] => false
    | d :: _ => if c = a ∧ d = b then true else containsPair a b t

/-- Counterexample to C5 as stated: for the Term entity with value
`Dog's`, the final serialized changeset body (after the converters'
`.replace` fix-up) is `MERGE (n0:term \x7bvalue:'Dog's'\x7d)` — the
single quote inside the value appears bare, with no backslash-escaped
quote pair anywhere in the body, contradicting the claim that every
quote character appears as a literal backslash-escaped quote. -/
theorem C5_counterexample :
    collapseStr (renderStmt (create_entity_cypher_stmt
        (mkEnt .term [("value", AVal.s "Dog's")])).1.1) =
      "MERGE (n0:term \x7bvalue:'Dog's'\x7d)" ∧
    containsPair bsC sqC (collapseStr (renderStmt (create_entity_cypher_stmt
        (mkEnt .term [("value", AVal.s "Dog's")])).1.1)).data = false ∧
    sqC ∈ (collapseStr (renderStmt (create_entity_cypher_stmt
        (mkEnt .term [("value", AVal.s "Dog's")])).1.1)).data :=
  ⟨rfl, rfl, by decide⟩

/-- C5 (amended): in the final serialized changeset body of an
entity-creation statement (rendered, then passed through the converters'
backslash-collapsing fix-up) for an entity whose attribute keys are free
of backslashes and double quotes and whose string values are
backslash-free, every double quote appears exactly singly
backslash-escaped, single quotes appear bare (unescaped), and nothing is
doubly escaped; and rendering the same entity again (as mutated by the
first run's in-place escaping pass) reproduces the statement byte for
byte. -/
theorem C5_body_escaping_amended (e : Ent)
    (hc : ∀ p ∈ e.attrs, cleanPair p) :
    good (collapseChars (renderStmt (create_entity_cypher_stmt e).1.1).data) = true ∧
    create_entity_cypher_stmt (create_entity_cypher_stmt e).2 = create_entity_cypher_stmt e := by
  refine ⟨good_create_body e hc, ?_⟩
  rw [snd_create_entity]
  exact create_escape_stable e

/-- Concrete instance of the amended C5 on a term whose value holds both
a bare single quote and a double quote. -/
theorem C5_witness :
    (∀ p ∈ (mkEnt .term [("value", AVal.s "He said \"hi\" to Dog's")]).attrs,
      cleanPair p) ∧
    (good (collapseChars (renderStmt (create_entity_cypher_stmt
        (mkEnt .term [("value", AVal.s "He said \"hi\" to Dog's")])).1.1).data) = true ∧
     create_entity_cypher_stmt (create_entity_cypher_stmt
        (mkEnt .term [("value", AVal.s "He said \"hi\" to Dog's")])).2 =
       create_entity_cypher_stmt (mkEnt .term [("value", AVal.s "He said \"hi\" to Dog's")])) :=
  ⟨by decide, C5_body_escaping_amended _ (by decide)⟩

/-! ### C7 -/

theorem lookupKey_map_set_ne :
    ∀ (l : List (String × AVal)) (k k' : String) (v : AVal), k' ≠ k →
      lookupKey (l.map fun p => if p.1 = k then (k, v) else p) k' = lookupKey l k' := by
  intro l k k' v hne
  induction l with
  | nil => rfl
  | cons p rest ih =>
    by_cases hp : p.1 = k
    · have h1 : (if p.1 = k then (k, v) else p) = (k, v) := if_pos hp
      simp only [List.map_cons, h1]
      unfold lookupKey
      rw [if_neg (fun h => hne h.symm), if_neg (fun h => hne (hp ▸ h).symm
        )]
      exact ih
    · have h1 : (if p.1 = k then (k, v) else p) = p := if_neg hp
      simp only [List.map_cons, h1]
      unfold lookupKey
      by_cases hk' : p.1 = k'
      · rw [if_pos hk', if_pos hk']
      · rw [if_neg hk', if_neg hk']
        exact ih

theorem lookupKey_append_ne :
    ∀ (l : List (String × AVal)) (k k' : String) (v : AVal), k' ≠ k →
      lookupKey (l ++ [(k, v)]) k' = lookupKey l k' := by
  intro l k k' v hne
  induction l with
  | nil =>
    show (if k = k' then some v else lookupKey [] k') = none
    rw [if_neg (fun h => hne h.symm)]
    rfl
  | cons p rest ih =>
    simp only [List.cons_append, lookupKey]
    by_cases hk' : p.1 = k'
    · rw [if_pos hk', if_pos hk']
    · rw [if_neg hk', if_neg hk']
      exact ih

theorem lookupKey_setKey_ne (l : List (String × AVal)) (k k' : String)
    (v : AVal) (h : k' ≠ k) :
    lookupKey (setKey l k v) k' = lookupKey l k' := by
  unfold setKey
  by_cases ha : l.any (fun p => decide (p.1 = k)) = true
  · rw [if_pos ha]
    exact lookupKey_map_set_ne l k k' v h
  · rw [if_neg ha]
    exact lookupKey_append_ne l k k' v h

theorem lookupKey_map_set_self :
    ∀ (l : List (String × AVal)) (k : String) (v : AVal),
      l.any (fun p => decide (p.1 = k)) = true →
      lookupKey (l.map fun p => if p.1 = k then (k, v) else p) k = some v := by
  intro l k v ha
  induction l with
  | nil => cases ha
  | cons p rest ih =>
    by_cases hp : p.1 = k
    · have h1 : (if p.1 = k then (k, v) else p) = (k, v) := if_pos hp
      simp only [List.map_cons, h1]
      unfold lookupKey
      rw [if_pos rfl]
    · have h1 : (if p.1 = k then (k, v) else p) = p := if_neg hp
      simp only [List.map_cons, h1]
      unfold lookupKey
      rw [if_neg hp]
      apply ih
      simp only [List.any_cons, Bool.or_eq_true] at ha
      cases ha with
      | inl h => exact absurd (of_decide_eq_true h) hp
      | inr h => exact h

theorem lookupKey_append_self :
    ∀ (l : List (String × AVal)) (k : String) (v : AVal),
      l.any (fun p => decide (p.1 = k)) = false →
      lookupKey (l ++ [(k, v)]) k = some v := by
  intro l k v ha
  induction l with
  | nil =>
    show (if k = k then some v else lookupKey [] k) = some v
    rw [if_pos rfl]
  | cons p rest ih =>
    simp only [List.any_cons, Bool.or_eq_false_iff] at ha
    simp only [List.cons_append, lookupKey]
    rw [if_neg (of_decide_eq_false ha.1)]
    exact ih ha.2

theorem lookupKey_setKey_self (l : List (String × AVal)) (k : String) (v : AVal) :
    lookupKey (setKey l k v) k = some v := by
  unfold setKey
  by_cases ha : l.any (fun p => decide (p.1 = k)) = true
  · rw [if_pos ha]
    exact lookupKey_map_set_self l k v ha
  · rw [if_neg ha]
    exact lookupKey_append_self l k v (by rw [← Bool.not_eq_true]; exact ha)

theorem attrs_withValueSet (e : Ent) (v : Option Ent) :
    (e.withValueSet v).attrs = e.attrs := by
  cases e; rfl

theorem valueSet_withValueSet (e : Ent) (v : Option Ent) :
    (e.withValueSet v).valueSet = v := by
  cases e; rfl

theorem valueSet_withAttrs (e : Ent) (a : List (String × AVal)) :
    (e.withAttrs a).valueSet = e.valueSet := by
  cases e; rfl

theorem attrs_dupEnt (e : Ent) : (dupEnt e).attrs = e.attrs := rfl

theorem valueSet_dupEnt (e : Ent) : (dupEnt e).valueSet = none := rfl

theorem entEq_trans (a b c : Ent) (h1 : entEq a b = true) (h2 : entEq b c = true) :
    entEq a c = true := by
  unfold entEq at h1 h2 ⊢
  rw [decide_eq_true_eq] at h1 h2
  rw [decide_eq_true_eq]
  exact ⟨h1.1.trans h2.1, h1.2.trans h2.2⟩

/-- When the original property carries a truthy nanoid, the duplicate
gets the freshly generated identifier and the generator counter is
consumed. -/
theorem sepDup_nanoid_pos (p : Ent) (c : Nat)
    (h : truthyA (getAttr p "nanoid") = true) :
    getAttr (sepDup p c).1 "nanoid" = some (AVal.s (make_nanoid c)) ∧
    (sepDup p c).2 = c + 1 := by
  unfold sepDup
  dsimp only
  rw [if_pos (show truthyA (getAttr (dupEnt p) "nanoid") = true from h)]
  dsimp only
  constructor
  · by_cases hcm : truthyA (getAttr p "_commit") = true
    · rw [if_pos hcm]
      cases hv : getAttr p "_commit" with
      | none => exact absurd (hv ▸ hcm) (by decide)
      | some cv =>
        cases hvs : p.valueSet <;>
          simp [getAttr, attrs_withValueSet, attrs_withAttrs, attrs_dupEnt,
            lookupKey_setKey_ne _ _ _ _ (by decide : "nanoid" ≠ "_commit"),
            lookupKey_setKey_self]
    · rw [if_neg hcm]
      cases hvs : p.valueSet <;>
        simp [getAttr, attrs_withValueSet, attrs_withAttrs, attrs_dupEnt,
          lookupKey_setKey_self]
  · rfl

/-- When the original property has no truthy nanoid, the duplicate's
nanoid is left exactly as it was and no fresh identifier is generated. -/
theorem sepDup_nanoid_neg (p : Ent) (c : Nat)
    (h : truthyA (getAttr p "nanoid") = false) :
    getAttr (sepDup p c).1 "nanoid" = getAttr p "nanoid" ∧
    (sepDup p c).2 = c := by
  unfold sepDup
  dsimp only
  rw [if_neg (show ¬ truthyA (getAttr (dupEnt p) "nanoid") = true by
    rw [show truthyA (getAttr (dupEnt p) "nanoid") = truthyA (getAttr p "nanoid") from rfl, h]
    exact Bool.false_ne_true)]
  dsimp only
  constructor
  · by_cases hcm : truthyA (getAttr p "_commit") = true
    · rw [if_pos hcm]
      cases hv : getAttr p "_commit" with
      | none => exact absurd (hv ▸ hcm) (by decide)
      | some cv =>
        cases hvs : p.valueSet <;>
          simp [getAttr, attrs_withValueSet, attrs_withAttrs, attrs_dupEnt,
            lookupKey_setKey_ne _ _ _ _ (by decide : "nanoid" ≠ "_commit")]
    · rw [if_neg hcm]
      cases hvs : p.valueSet <;>
        simp [getAttr, attrs_withValueSet, attrs_dupEnt]
  · rfl

/-- The duplicate preserves a truthy commit marker. -/
theorem sepDup_commit (p : Ent) (c : Nat)
    (h : truthyA (getAttr p "_commit") = true) :
    getAttr (sepDup p c).1 "_commit" = getAttr p "_commit" := by
  unfold sepDup
  dsimp only
  by_cases hn : truthyA (getAttr (dupEnt p) "nanoid") = true
  · rw [if_pos hn]
    dsimp only
    rw [if_pos h]
    cases hv : getAttr p "_commit" with
    | none => exact absurd (hv ▸ h) (by decide)
    | some cv =>
      cases hvs : p.valueSet <;>
        simp [hv, getAttr, attrs_withValueSet, attrs_withAttrs, attrs_dupEnt,
          lookupKey_setKey_self]
  · rw [if_neg hn]
    dsimp only
    rw [if_pos h]
    cases hv : getAttr p "_commit" with
    | none => exact absurd (hv ▸ h) (by decide)
    | some cv =>
      cases hvs : p.valueSet <;>
        simp [hv, getAttr, attrs_withValueSet, attrs_withAttrs, attrs_dupEnt,
          lookupKey_setKey_self]

/-- The duplicate carries its own duplicated value set when one is
present. -/
theorem sepDup_valueSet (p : Ent) (c : Nat) (vs : Ent)
    (h : p.valueSet = some vs) :
    (sepDup p c).1.valueSet = some (dupEnt vs) := by
  unfold sepDup
  dsimp only
  rw [h]
  by_cases hn : truthyA (getAttr (dupEnt p) "nanoid") = true
  · rw [if_pos hn]
    dsimp only
    by_cases hcm : truthyA (getAttr p "_commit") = true
    · rw [if_pos hcm]
      cases hv : getAttr p "_commit" <;> simp [valueSet_withValueSet]
    · rw [if_neg hcm]
      simp [valueSet_withValueSet]
  · rw [if_neg hn]
    dsimp only
    by_cases hcm : truthyA (getAttr p "_commit") = true
    · rw [if_pos hcm]
      cases hv : getAttr p "_commit" <;> simp [valueSet_withValueSet]
    · rw [if_neg hcm]
      simp [valueSet_withValueSet]

/-- Whether an entry before index `i` of the props map holds an entity
value-equal to `p`: `p` at `i` is a second-or-later sighting exactly
when this holds. -/
def seenBefore (l : List ((String × String) × Ent)) (i : Nat) (p : Ent) : Bool :=
  (l.take i).any fun q => entEq p q.2

/-- Per-index characterization of the iteration of
`separate_shared_props`: an entry whose entity was not seen (in the
accumulated seen-set nor earlier in the list) is left unchanged, and a
second-or-later sighting is replaced by `sepDup` at some counter
value. -/
theorem sepPropsGo_get? :
    ∀ (l : List ((String × String) × Ent)) (nodes : List (String × Ent))
      (seen : List Ent) (ctr : Nat)
      (nodesOut : List (String × Ent)) (propsOut : List ((String × String) × Ent))
      (ctrOut : Nat),
      sepPropsGo nodes l seen ctr = .ok (nodesOut, propsOut, ctrOut) →
      ∀ (i : Nat) (k : String × String) (p : Ent),
        l.get? i = some (k, p) →
        ((seen.any (entEq p) || seenBefore l i p) = false →
          propsOut.get? i = some (k, p)) ∧
        ((seen.any (entEq p) || seenBefore l i p) = true →
          ∃ c, propsOut.get? i = some (k, (sepDup p c).1)) := by
  intro l
  induction l with
  | nil =>
    intro nodes seen ctr nodesOut propsOut ctrOut h i k p hip
    cases hip
  | cons hd tl ih =>
    intro nodes seen ctr nodesOut propsOut ctrOut h i k p hip
    obtain ⟨k₀, p₀⟩ := hd
    rw [sepPropsGo] at h
    by_cases hs : seen.any (entEq p₀) = true
    · rw [if_pos hs] at h
      rcases hsd : sepDup p₀ ctr with ⟨np, c2⟩
      rw [hsd] at h
      dsimp only at h
      cases hup : updateNodeProp nodes k₀.1 k₀.2 np with
      | error msg =>
        rw [hup] at h
        exact absurd h (by simp)
      | ok nodes1 =>
        rw [hup] at h
        dsimp only at h
        cases hrec : sepPropsGo nodes1 tl seen c2 with
        | error msg =>
          rw [hrec] at h
          exact absurd h (by simp)
        | ok res2 =>
          obtain ⟨n2, r2, c3⟩ := res2
          rw [hrec] at h
          dsimp only at h
          have hprops : propsOut = (k₀, np) :: r2 := by
            injection h with h2
            injection h2 with ha hb
            injection hb with hc hd2
            exact hc.symm
          subst hprops
          cases i with
          | zero =>
            have hkp : k₀ = k ∧ p₀ = p := by
              injection hip with h'
              exact ⟨congrArg Prod.fst h', congrArg Prod.snd h'⟩
            obtain ⟨rfl, rfl⟩ := hkp
            constructor
            · intro hcond
              rw [hs] at hcond
              cases hcond
            · intro _
              refine ⟨ctr, ?_⟩
              rw [hsd]
              rfl
          | succ i' =>
            have hi' : tl.get? i' = some (k, p) := hip
            have IH := ih nodes1 seen c2 n2 r2 c3 hrec i' k p hi'
            have hcondSucc :
                (seen.any (entEq p) || seenBefore ((k₀, p₀) :: tl) (i' + 1) p) =
                (seen.any (entEq p) || (entEq p p₀ || seenBefore tl i' p)) := by
              simp [seenBefore, List.take_succ_cons]
            constructor
            · intro hcond
              rw [hcondSucc] at hcond
              simp only [Bool.or_eq_false_iff] at hcond
              exact IH.1 (by simp [hcond.1, hcond.2.2])
            · intro hcond
              rw [hcondSucc] at hcond
              by_cases hA : (seen.any (entEq p) || seenBefore tl i' p) = true
              · exact IH.2 hA
              · have hA' : (seen.any (entEq p) || seenBefore tl i' p) = false := by
                  rw [← Bool.not_eq_true]
                  exact hA
                simp only [Bool.or_eq_false_iff] at hA'
                have hpe : entEq p p₀ = true := by
                  rw [hA'.1, hA'.2] at hcond
                  simpa using hcond
                exfalso
                rw [List.any_eq_true] at hs
                obtain ⟨r, hr, hre⟩ := hs
                have hcontra : seen.any (entEq p) = true := by
                  rw [List.any_eq_true]
                  exact ⟨r, hr, entEq_trans p p₀ r hpe hre⟩
                rw [hA'.1] at hcontra
                cases hcontra
    · rw [if_neg hs] at h
      cases hrec : sepPropsGo nodes tl (seen ++ [p₀]) ctr with
      | error msg =>
        rw [hrec] at h
        exact absurd h (by simp)
      | ok res2 =>
        obtain ⟨n2, r2, c3⟩ := res2
        rw [hrec] at h
        dsimp only at h
        have hprops : propsOut = (k₀, p₀) :: r2 := by
          injection h with h2
          injection h2 with ha hb
          injection hb with hc hd2
          exact hc.symm
        subst hprops
        cases i with
        | zero =>
          have hkp : k₀ = k ∧ p₀ = p := by
            injection hip with h'
            exact ⟨congrArg Prod.fst h', congrArg Prod.snd h'⟩
          obtain ⟨rfl, rfl⟩ := hkp
          have hcond0 : (seen.any (entEq p₀) || seenBefore ((k₀, p₀) :: tl) 0 p₀) = false := by
            simp [seenBefore]
            simpa using hs
          constructor
          · intro _
            rfl
          · intro hcond
            rw [hcond0] at hcond
            cases hcond
        | succ i' =>
          have hi' : tl.get? i' = some (k, p) := hip
          have IH := ih nodes (seen ++ [p₀]) ctr n2 r2 c3 hrec i' k p hi'
          have hcondSucc :
              ((seen ++ [p₀]).any (entEq p) || seenBefore tl i' p) =
              (seen.any (entEq p) || seenBefore ((k₀, p₀) :: tl) (i' + 1) p) := by
            simp [seenBefore, List.take_succ_cons, List.any_append, Bool.or_assoc]
          constructor
          · intro hcond
            exact IH.1 (by rw [hcondSucc]; exact hcond)
          · intro hcond
            exact IH.2 (by rw [hcondSucc]; exact hcond)

/-- A property shared by two owners that carries no nanoid at all. -/
def C7prop : Ent := mkEnt .property [("handle", AVal.s "p")]

/-- An owner node embedding the shared property. -/
def C7node (h : String) : Ent :=
  (mkEnt .node [("handle", AVal.s h)]).withProps [("p", C7prop)]

/-- A model in which two nodes share one nanoid-less property object. -/
def C7model : Mdl :=
  ⟨"M", none, none, [("n1", C7node "n1"), ("n2", C7node "n2")], [],
   [(("n1", "p"), C7prop), (("n2", "p"), C7prop)], []⟩

/-- Counterexample to C7 as stated: in `C7model` the property at index 1
of the props map is a second sighting of a value-equal shared property,
yet `separate_shared_props` returns the model completely unchanged — the
replacement is byte-identical to the original and carries no identifier
at all, because the fresh nanoid is only generated when the duplicate
already had a truthy one (`if new_prop.nanoid:`). -/
theorem C7_counterexample :
    separate_shared_props C7model 0 = .ok (C7model, 0) ∧
    seenBefore C7model.props 1 C7prop = true ∧
    getAttr C7prop "nanoid" = none :=
  ⟨rfl, rfl, rfl⟩

/-- C7 (amended): after a successful `separate_shared_props` run, every
entry of the props map that was a first sighting of its value-equality
class is left in place unchanged, and every second-or-later sighting has
been replaced by the `sepDup` duplicate at some counter value — a
duplicate that carries a freshly generated identifier when (and only
when) the original property had a truthy nanoid, preserves a truthy
commit marker, and carries its own duplicated value set when one is
present. -/
theorem C7_shared_props_amended
    (m : Mdl) (ctr : Nat) (m' : Mdl) (ctr' : Nat)
    (h : separate_shared_props m ctr = .ok (m', ctr'))
    (i : Nat) (k : String × String) (p : Ent)
    (hip : m.props.get? i = some (k, p)) :
    (seenBefore m.props i p = false → m'.props.get? i = some (k, p)) ∧
    (seenBefore m.props i p = true →
      ∃ c, m'.props.get? i = some (k, (sepDup p c).1) ∧
        (truthyA (getAttr p "nanoid") = true →
          getAttr (sepDup p c).1 "nanoid" = some (AVal.s (make_nanoid c)) ∧
          (sepDup p c).2 = c + 1) ∧
        (truthyA (getAttr p "nanoid") = false →
          getAttr (sepDup p c).1 "nanoid" = getAttr p "nanoid" ∧
          (sepDup p c).2 = c) ∧
        (truthyA (getAttr p "_commit") = true →
          getAttr (sepDup p c).1 "_commit" = getAttr p "_commit") ∧
        (∀ vs, p.valueSet = some vs →
          (sepDup p c).1.valueSet = some (dupEnt vs))) := by
  unfold separate_shared_props at h
  cases hgo : sepPropsGo m.nodes m.props [] ctr with
  | error msg =>
    rw [hgo] at h
    exact absurd h (by simp)
  | ok res =>
    obtain ⟨n2, r2, c3⟩ := res
    rw [hgo] at h
    dsimp only at h
    have hm' : m'.props = r2 := by
      injection h with h2
      injection h2 with ha hb
      rw [← ha]
    have HG := sepPropsGo_get? m.props m.nodes [] ctr n2 r2 c3 hgo i k p hip
    rw [hm']
    constructor
    · intro hsb
      exact HG.1 (by simp [hsb])
    · intro hsb
      obtain ⟨c, hc⟩ := HG.2 (by simp [hsb])
      exact ⟨c, hc, fun ht => sepDup_nanoid_pos p c ht,
        fun hf => sepDup_nanoid_neg p c hf,
        fun ht => sepDup_commit p c ht,
        fun vs hvs => sepDup_valueSet p c vs hvs⟩

/-- A property shared by two owners that does carry a nanoid. -/
def C7wProp : Ent :=
  mkEnt .property [("handle", AVal.s "q"), ("nanoid", AVal.s "abc")]

/-- An owner node embedding the nanoid-carrying shared property. -/
def C7wNode (h : String) : Ent :=
  (mkEnt .node [("handle", AVal.s h)]).withProps [("q", C7wProp)]

/-- A model in which two nodes share one nanoid-carrying property. -/
def C7wModel : Mdl :=
  ⟨"M", none, none, [("n1", C7wNode "n1"), ("n2", C7wNode "n2")], [],
   [(("n1", "q"), C7wProp), (("n2", "q"), C7wProp)], []⟩

/-- The duplicate the pass builds for the second sighting in
`C7wModel`: the same attributes with the freshly generated nanoid. -/
def C7wProp2 : Ent :=
  mkEnt .property [("handle", AVal.s "q"), ("nanoid", AVal.s "nanoid0")]

/-- `C7wModel` after the pass: the second owner and the second props
entry now hold the fresh duplicate. -/
def C7wModel2 : Mdl :=
  ⟨"M", none, none,
   [("n1", C7wNode "n1"),
    ("n2", (mkEnt .node [("handle", AVal.s "n2")]).withProps [("q", C7wProp2)])],
   [], [(("n1", "q"), C7wProp), (("n2", "q"), C7wProp2)], []⟩

theorem C7_witness :
    separate_shared_props C7wModel 0 = .ok (C7wModel2, 1) ∧
    truthyA (getAttr C7wProp "nanoid") = true ∧
    ((seenBefore C7wModel.props 1 C7wProp = false →
        C7wModel2.props.get? 1 = some ((("n2", "q") : String × String), C7wProp)) ∧
     (seenBefore C7wModel.props 1 C7wProp = true →
      ∃ c, C7wModel2.props.get? 1 =
          some ((("n2", "q") : String × String), (sepDup C7wProp c).1) ∧
        (truthyA (getAttr C7wProp "nanoid") = true →
          getAttr (sepDup C7wProp c).1 "nanoid" =
            some (AVal.s (make_nanoid c)) ∧
          (sepDup C7wProp c).2 = c + 1) ∧
        (truthyA (getAttr C7wProp "nanoid") = false →
          getAttr (sepDup C7wProp c).1 "nanoid" = getAttr C7wProp "nanoid" ∧
          (sepDup C7wProp c).2 = c) ∧
        (truthyA (getAttr C7wProp "_commit") = true →
          getAttr (sepDup C7wProp c).1 "_commit" = getAttr C7wProp "_commit") ∧
        (∀ vs, C7wProp.valueSet = some vs →
          (sepDup C7wProp c).1.valueSet = some (dupEnt vs)))) :=
  ⟨rfl, rfl,
   C7_shared_props_amended C7wModel 0 C7wModel2 1 rfl 1 ("n2", "q") C7wProp rfl⟩

end BentoMdb
